import Mathlib

/-!
Verification of the Agri-Tech Data Analyzer cleaning/aggregation pipeline
(src/app.py and src/data_analyzer.py) against its natural-language
specification.

Shallow embedding conventions:
* Calendar dates are modelled as day numbers (type Int) with day 0 being a
  Sunday, so that a day number d is a Sunday exactly when d % 7 = 0.  In the
  concrete examples below, day 0 stands for 2023-12-31 (a Sunday), hence
  2024-01-01 is day 1, 2024-01-02 is day 2, 2024-01-03 is day 3 and
  2024-01-15 is day 15.
* Numeric cell values are modelled as exact rationals; the code computes with
  floats, and nothing any claim tests depends on float rounding error.
* A pandas missing value (NaN / NaT) is modelled as Option.none, both in raw
  table cells and in the fields of cleaned records: pandas propagates
  NaN/NaT through fillna, to_datetime, to_numeric, comparisons (which yield
  False) and aggregation (which skips missing values), and the embedding
  mirrors each of these behaviours at the point where the code uses them.
* The human-readable warning and error strings produced by validate_data are
  modelled by the inductive type Msg; each constructor documents the exact
  python format string it stands for.
-/

/-- A non-missing raw cell value: either a calendar date or a number.
A value of the wrong kind for its column is rejected by the type-coercion
step (pd.to_datetime / pd.to_numeric on unparseable input raise, which
app.py turns into a conversion error). -/
inductive Val where
  | vdate (d : ℤ)
  | vnum (q : ℚ)
deriving DecidableEq

/-- One raw table cell: none models a pandas missing value (NaN). -/
abbrev Cell := Option Val

/-- A raw loaded table: named columns of untyped cells, in original order,
as produced by pd.read_csv / pd.read_excel. -/
structure RawTable where
  cols : List (String × List Cell)
deriving DecidableEq

/-- The column names of a raw table, in order (df.columns). -/
def colNames (t : RawTable) : List String := t.cols.map (·.1)

/-- Column lookup by exact name (df[name]); none when the name is absent,
which in python raises KeyError. -/
def getCol (t : RawTable) (name : String) : Option (List Cell) :=
  (t.cols.find? (fun p => p.1 == name)).map (·.2)

/-- Warning and error messages of validate_data (app.py).  Each constructor
stands for one python format string:
* missingColumn c  : "Missing required column: {c}"
* fillMissing n    : "Found {n} missing values - filling with forward fill"
* negRainfall      : "Found negative rainfall values - setting to 0"
* negGrowth        : "Found negative growth values - removing those rows"
* convFailedKey c  : "Data type conversion failed: {KeyError for column c}"
* convFailedCell c : "Data type conversion failed: {parse error in column c}"
-/
inductive Msg where
  | missingColumn (col : String)
  | fillMissing (count : ℕ)
  | negRainfall
  | negGrowth
  | convFailedKey (col : String)
  | convFailedCell (col : String)
deriving DecidableEq

/-- The three required column names (app.py line 49). -/
def requiredColumns : List String := ["Date", "Rainfall_mm", "Crop_Growth_cm"]

/-- ASCII lower-casing of one character; python str.lower agrees with this on
the ASCII column names the validator compares. -/
def asciiLower (c : Char) : Char :=
  if c.toNat ≥ 65 ∧ c.toNat ≤ 90 then Char.ofNat (c.toNat + 32) else c

/-- Boolean test that p is a leading piece of l (used by substring search). -/
def listPre : List Char → List Char → Bool
  | [], _ => true
  | _ :: _, [] => false
  | a :: as, b :: bs => a == b && listPre as bs

/-- Boolean substring test: listSub p l is true when p occurs contiguously
inside l (python: p in l). -/
def listSub (p : List Char) : List Char → Bool
  | [] => listPre p []
  | b :: bs => listPre p (b :: bs) || listSub p bs

/-- Left-to-right removal of every occurrence of pat (python
str.replace(pat, "")), fuelled by the remaining length so that the recursion
is structural. -/
def stripGo (pat : List Char) : ℕ → List Char → List Char
  | _, [] => []
  | 0, l => l
  | fuel + 1, c :: cs =>
      if pat ≠ [] ∧ listPre pat (c :: cs) then stripGo pat fuel ((c :: cs).drop pat.length)
      else c :: stripGo pat fuel cs

/-- Remove every occurrence of pat from l (python str.replace(pat, "")). -/
def stripAll (pat l : List Char) : List Char := stripGo pat l.length l

/-- Name normalization of app.py lines 57-58:
name.lower().replace("_", "").replace("mm", "").replace("cm", ""),
applied in exactly that order. -/
def normName (s : String) : List Char :=
  stripAll "cm".toList (stripAll "mm".toList (stripAll "_".toList (s.toList.map asciiLower)))

/-- Fuzzy resolution test of app.py lines 57-58: some candidate column name
contains the normalized required name as a substring. -/
def hasSimilar (names : List String) (req : String) : Bool :=
  names.any (fun c => listSub (normName req) (normName c))

/-- Schema check of app.py lines 48-60: one missing-column error for every
required column that is absent and has no fuzzy candidate.  (The python
guard "if missing_columns:" around the loop is redundant: with no missing
column the loop body appends nothing, and the filterMap below likewise
produces nothing.)  Note the code records no resolution: a fuzzy candidate
only suppresses the error, it is never renamed to the required name. -/
def schemaErrors (t : RawTable) : List Msg :=
  requiredColumns.filterMap (fun req =>
    if (colNames t).contains req then none
    else if hasSimilar (colNames t) req then none
    else some (Msg.missingColumn req))

/-- Forward fill with the last seen non-missing value carried along
(pandas df.fillna(method="ffill"), per column). -/
def ffillGo (carry : Cell) : List Cell → List Cell
  | [] => []
  | none :: cs => carry :: ffillGo carry cs
  | some v :: cs => some v :: ffillGo (some v) cs

/-- Forward fill of one column (pandas fillna(method="ffill")). -/
def ffillCol (col : List Cell) : List Cell := ffillGo none col

/-- Backward fill of one column (pandas fillna(method="bfill")): a missing
cell takes the nearest following non-missing value, which is the head of the
backward-filled tail. -/
def bfillCol : List Cell → List Cell
  | [] => []
  | some v :: cs => some v :: bfillCol cs
  | none :: cs => (bfillCol cs).headD none :: bfillCol cs

/-- Total number of missing cells in the table (df.isnull().sum().sum()). -/
def naCount (t : RawTable) : ℕ :=
  (t.cols.map (fun p => p.2.countP (fun c => c.isNone))).sum

/-- Forward fill then backward fill applied to every column of the table
(app.py line 68: df.fillna(method="ffill").fillna(method="bfill")). -/
def imputeTable (t : RawTable) : RawTable :=
  ⟨t.cols.map (fun p => (p.1, bfillCol (ffillCol p.2)))⟩

/-- Missing-value step of app.py lines 65-68: when the table has any missing
cell, fill the whole table and emit one warning carrying the count of
missing cells found before filling. -/
def imputeStage (t : RawTable) : RawTable × List Msg :=
  if 0 < naCount t then (imputeTable t, [Msg.fillMissing (naCount t)]) else (t, [])

/-- One record of the cleaned dataset; each field is none when the pandas
cell is missing (NaT / NaN). -/
structure Record where
  date : Option ℤ
  rainfall_mm : Option ℚ
  growth_cm : Option ℚ
deriving DecidableEq

/-- Coerce one cell of the Date column (pd.to_datetime): missing stays
missing (NaT), a date parses to itself, a non-date value is a conversion
failure. -/
def toDateCell : Cell → Option (Option ℤ)
  | none => some none
  | some (Val.vdate d) => some (some d)
  | some (Val.vnum _) => none

/-- Coerce one cell of a numeric column (pd.to_numeric): missing stays
missing (NaN), a number parses to itself, a non-number value is a conversion
failure. -/
def toNumCell : Cell → Option (Option ℚ)
  | none => some none
  | some (Val.vnum q) => some (some q)
  | some (Val.vdate _) => none

/-- Coerce a whole column, failing when any cell fails. -/
def parseCol (f : Cell → Option α) : List Cell → Option (List α)
  | [] => some []
  | c :: cs =>
      match f c, parseCol f cs with
      | some v, some vs => some (v :: vs)
      | _, _ => none

/-- Assemble records from the three coerced columns, position by position. -/
def mkRecords : List (Option ℤ) → List (Option ℚ) → List (Option ℚ) → List Record
  | d :: ds, r :: rs, g :: gs => ⟨d, r, g⟩ :: mkRecords ds rs gs
  | _, _, _ => []

/-- Result of the type-coercion step of app.py lines 70-77. -/
inductive CoerceOut where
  | ok (records : List Record)
  | err (e : Msg)
deriving DecidableEq

/-- Type coercion of app.py lines 70-77, in python order Date, Rainfall_mm,
Crop_Growth_cm.  Looking up a column that does not exist under its exact
required name raises KeyError, caught by the surrounding try/except and
reported as a conversion failure; an unparseable cell likewise. -/
def coerceStage (t : RawTable) : CoerceOut :=
  match getCol t "Date" with
  | none => CoerceOut.err (Msg.convFailedKey "Date")
  | some dc =>
    match parseCol toDateCell dc with
    | none => CoerceOut.err (Msg.convFailedCell "Date")
    | some dl =>
      match getCol t "Rainfall_mm" with
      | none => CoerceOut.err (Msg.convFailedKey "Rainfall_mm")
      | some rc =>
        match parseCol toNumCell rc with
        | none => CoerceOut.err (Msg.convFailedCell "Rainfall_mm")
        | some rl =>
          match getCol t "Crop_Growth_cm" with
          | none => CoerceOut.err (Msg.convFailedKey "Crop_Growth_cm")
          | some gc =>
            match parseCol toNumCell gc with
            | none => CoerceOut.err (Msg.convFailedCell "Crop_Growth_cm")
            | some gl => CoerceOut.ok (mkRecords dl rl gl)

/-- Does the record have a negative (non-missing) rainfall value?
pandas: (df["Rainfall_mm"] < 0), with NaN comparing False. -/
def hasNegRain (r : Record) : Bool :=
  match r.rainfall_mm with
  | some q => decide (q < 0)
  | none => false

/-- Clamp a negative rainfall value to 0 (app.py line 82); missing and
non-negative values are untouched. -/
def clampRain (r : Record) : Record :=
  { r with rainfall_mm :=
      match r.rainfall_mm with
      | some q => if q < 0 then some 0 else some q
      | none => none }

/-- Does the record have a negative (non-missing) growth value?
pandas: (df["Crop_Growth_cm"] < 0), with NaN comparing False. -/
def hasNegGrowth (r : Record) : Bool :=
  match r.growth_cm with
  | some g => decide (g < 0)
  | none => false

/-- Row-retention test of app.py line 86: df["Crop_Growth_cm"] >= 0.
A missing growth value compares False in pandas, so such a row is dropped
too when the drop branch runs. -/
def growthKeep (r : Record) : Bool :=
  match r.growth_cm with
  | some g => decide (0 ≤ g)
  | none => false

/-- Rainfall outlier policy of app.py lines 79-82: when any rainfall value
is negative, clamp the negative ones to 0 (rows retained) and warn once. -/
def rainStage (rs : List Record) : List Record × List Msg :=
  if rs.any hasNegRain then (rs.map clampRain, [Msg.negRainfall]) else (rs, [])

/-- Growth outlier policy of app.py lines 84-86: when any growth value is
negative, keep only the rows whose growth compares >= 0 and warn once. -/
def growthStage (rs : List Record) : List Record × List Msg :=
  if rs.any hasNegGrowth then (rs.filter growthKeep, [Msg.negGrowth]) else (rs, [])

/-- Outlier policy of app.py lines 79-86: rainfall clamping first, then the
growth-row drop performed on the clamped rows, warnings in that order. -/
def outlierStage (rs : List Record) : List Record × List Msg :=
  ((growthStage (rainStage rs).1).1, (rainStage rs).2 ++ (growthStage (rainStage rs).1).2)

/-- Date-key comparison used by the chronological sort: pandas sorts NaT
after every real date. -/
def dateLE : Option ℤ → Option ℤ → Bool
  | none, none => true
  | none, some _ => false
  | some _, none => true
  | some a, some b => decide (a ≤ b)

/-- Ordered insertion for the date sort. -/
def insertByDate (r : Record) : List Record → List Record
  | [] => [r]
  | x :: xs => if dateLE r.date x.date then r :: x :: xs else x :: insertByDate r xs

/-- The chronological sort of app.py line 89 (df.sort_values("Date")),
modelled as an insertion sort on the date key.  Caveat: sort_values is
called without kind=, so pandas uses numpy quicksort (introsort), which
orders rows by date but does NOT guarantee the relative order of rows with
equal dates; no theorem below relies on the tie order this model happens to
produce. -/
def sortByDate : List Record → List Record
  | [] => []
  | x :: xs => insertByDate x (sortByDate xs)

/-- Result triple of validate_data (app.py): (df-or-None, errors, warnings). -/
structure ValidateOut where
  data : Option (List Record)
  errors : List Msg
  warnings : List Msg
deriving DecidableEq

/-- validate_data of app.py lines 43-91: schema check with fuzzy
suppression, missing-value imputation with warning, type coercion with
fatal error, asymmetric outlier policy with warnings, chronological sort.
The cleaned dataset keeps the three required fields of every surviving row;
further columns of df are irrelevant to every downstream consumer. -/
def validate_data (t : RawTable) : ValidateOut :=
  let errs := schemaErrors t
  if errs = [] then
    match coerceStage (imputeStage t).1 with
    | CoerceOut.err e => ⟨none, [e], (imputeStage t).2⟩
    | CoerceOut.ok rs =>
        ⟨some (sortByDate (outlierStage rs).1), [], (imputeStage t).2 ++ (outlierStage rs).2⟩
  else ⟨none, errs, []⟩

/-- Sum of a list of rationals (written out so that proofs can recurse on
the list directly). -/
def sumQ : List ℚ → ℚ
  | [] => 0
  | x :: xs => x + sumQ xs

/-- Arithmetic mean; only ever used on nonempty lists (guarded by avgQ or by
explicit emptiness tests), mirroring that pandas mean of an empty series is
NaN. -/
def meanQ (xs : List ℚ) : ℚ := sumQ xs / xs.length

/-- pandas Series.mean: NaN (none) on an empty series, otherwise the mean of
the non-missing values the caller passed in. -/
def avgQ (xs : List ℚ) : Option ℚ :=
  if xs = [] then none else some (meanQ xs)

/-- pandas Series.max: NaN (none) on an empty series. -/
def maxQ : List ℚ → Option ℚ
  | [] => none
  | x :: xs =>
      match maxQ xs with
      | none => some x
      | some m => some (max x m)

/-- Minimum of a list of day numbers (df["Date"].min(), skipping NaT). -/
def minZ : List ℤ → Option ℤ
  | [] => none
  | x :: xs =>
      match minZ xs with
      | none => some x
      | some m => some (min x m)

/-- Maximum of a list of day numbers (df["Date"].max(), skipping NaT). -/
def maxZ : List ℤ → Option ℤ
  | [] => none
  | x :: xs =>
      match maxZ xs with
      | none => some x
      | some m => some (max x m)

/-- The non-missing rainfall values of a dataset, in row order (pandas
numeric aggregation skips NaN). -/
def rainVals (ds : List Record) : List ℚ := ds.filterMap (·.rainfall_mm)

/-- The non-missing growth values of a dataset, in row order. -/
def growthVals (ds : List Record) : List ℚ := ds.filterMap (·.growth_cm)

/-- The non-missing dates of a dataset, in row order (NaT skipped). -/
def dateVals (ds : List Record) : List ℤ := ds.filterMap (·.date)

/-- Round half to even (python round), on an exact rational. -/
def roundHalfEven (q : ℚ) : ℤ :=
  let f := ⌊q⌋
  let r := q - (f : ℚ)
  if r < 1 / 2 then f
  else if 1 / 2 < r then f + 1
  else if f % 2 = 0 then f else f + 1

/-- python round(x, 2) on an exact rational. -/
def round2 (q : ℚ) : ℚ := (roundHalfEven (q * 100) : ℚ) / 100

/-- The complete (rainfall, growth) observations of a dataset: pandas
Series.corr correlates the positions where both series are non-missing. -/
def corrPairs (ds : List Record) : List (ℚ × ℚ) :=
  ds.filterMap (fun r =>
    match r.rainfall_mm, r.growth_cm with
    | some a, some b => some (a, b)
    | _, _ => none)

/-- Centered sum of squares Σ (x - mean)^2 of a series. -/
def varSum (xs : List ℚ) : ℚ :=
  sumQ (xs.map (fun x => (x - meanQ xs) * (x - meanQ xs)))

/-- Centered sum of products Σ (x - mean x)(y - mean y) over paired
observations: the numerator of the Pearson correlation coefficient. -/
def covSum (ps : List (ℚ × ℚ)) : ℚ :=
  sumQ (ps.map (fun p =>
    (p.1 - meanQ (ps.map Prod.fst)) * (p.2 - meanQ (ps.map Prod.snd))))

/-- pandas Series.corr (Pearson) produces NaN exactly when its denominator
sqrt(varSum x * varSum y) is zero, i.e. when either series of the complete
observations has zero centered sum of squares; this covers fewer than two
observations.  When it is false, .corr returns the Pearson coefficient
covSum ps / sqrt(varSum xs * varSum ys), a real number in [-1, 1] whose
exact value (an irrational square root in general) no claim needs.
The code raises nothing here: there is no InsufficientDataError anywhere in
the repository. -/
def pearsonIsNaN (ds : List Record) : Bool :=
  let ps := corrPairs ds
  decide (varSum (ps.map Prod.fst) = 0) || decide (varSum (ps.map Prod.snd) = 0)

/-- The scalar summary of calculate_statistics (app.py lines 94-106).
date_range stands for the formatted string "min to max"; correlation is
round(corr, 4), recorded here through its NaN-ness (see pearsonIsNaN). -/
structure Stats where
  total_records : ℕ
  date_range : ℤ × ℤ
  avg_rainfall : Option ℚ
  max_rainfall : Option ℚ
  total_rainfall : ℚ
  avg_growth : Option ℚ
  max_growth : Option ℚ
  correlation_isNaN : Bool
deriving DecidableEq

/-- calculate_statistics of app.py lines 94-106.  df["Date"].min() of a
dataset with no real date is NaT and NaT.strftime raises, which the route
handler reports as a 500 error: modelled as none.  Otherwise every entry of
the stats mapping is produced; in particular a NaN correlation is stored
silently, nothing fails on a 1-row dataset. -/
def calculate_statistics (ds : List Record) : Option Stats :=
  match minZ (dateVals ds), maxZ (dateVals ds) with
  | some dmin, some dmax =>
      some {
        total_records := ds.length,
        date_range := (dmin, dmax),
        avg_rainfall := (avgQ (rainVals ds)).map round2,
        max_rainfall := (maxQ (rainVals ds)).map round2,
        total_rainfall := round2 (sumQ (rainVals ds)),
        avg_growth := (avgQ (growthVals ds)).map round2,
        max_growth := (maxQ (growthVals ds)).map round2,
        correlation_isNaN := pearsonIsNaN ds }
  | _, _ => none

/-- np.polyfit(x, y, 1) (app.py line 147).  With at least two distinct x
values the design matrix has full rank and the unique least-squares line is
slope = covSum / varSum, intercept = mean y - slope * mean x.  With zero
x-variance (or fewer than two points) the matrix is rank-deficient: numpy
emits a RankWarning and returns a minimum-norm fallback solution, it raises
no exception; the fallback coefficients, which no downstream code inspects
beyond plotting, are modelled as none.  There is no DegenerateFitError
anywhere in the repository. -/
def polyfit1 (xs ys : List ℚ) : Option (ℚ × ℚ) :=
  if varSum xs = 0 then none
  else
    some (covSum (xs.zip ys) / varSum xs,
          meanQ ys - covSum (xs.zip ys) / varSum xs * meanQ xs)

/-- Rank-deficiency test of the degree-1 fit: all x equal (in particular
fewer than two points). -/
def polyfitRankDeficient (xs : List ℚ) : Bool := decide (varSum xs = 0)

/-- One weekly aggregate row of df.resample("W") (app.py lines 159-162):
the bucket of the 7-day window ending on the Sunday week_end.  growth_mean
is none (NaN) for a window with no contributing growth value - in
particular for an empty window, which pandas still emits, zero-filled for
the sum. -/
structure WeekBucket where
  week_end : ℤ
  rainfall_sum : ℚ
  growth_mean : Option ℚ
deriving DecidableEq

/-- The Sunday ending the week of day d: the smallest day number w with
d ≤ w and w % 7 = 0 (resample("W") = week ending Sunday, right-closed
windows labelled by their right edge). -/
def weekEnd (d : ℤ) : ℤ := d + (-d) % 7

/-- Does the record fall in the week ending on Sunday w?  A NaT date belongs
to no resample bucket. -/
def inWeek (w : ℤ) (r : Record) : Bool :=
  match r.date with
  | some d => decide (weekEnd d = w)
  | none => false

/-- The consecutive Sunday labels w0, w0+7, ..., w0+7k. -/
def weekLabels (w0 : ℤ) (k : ℕ) : List ℤ :=
  (List.range (k + 1)).map (fun i : ℕ => w0 + 7 * (i : ℤ))

/-- df.set_index("Date").resample("W").agg({rainfall: sum, growth: mean})
of app.py lines 159-162: one bucket per 7-day Sunday-ending window from the
week of the earliest date to the week of the latest date, consecutive and
including windows containing no record (pandas resample emits every bin of
the span: an empty bin gets sum 0 and mean NaN; it is not omitted).
Rows with NaT dates belong to no bin; a dataset with no real date resamples
to nothing. -/
def resampleWeekly (ds : List Record) : List WeekBucket :=
  match minZ (dateVals ds), maxZ (dateVals ds) with
  | some dmin, some dmax =>
      (weekLabels (weekEnd dmin) ((weekEnd dmax - weekEnd dmin).toNat / 7)).map (fun w =>
        { week_end := w,
          rainfall_sum := sumQ (rainVals (ds.filter (inWeek w))),
          growth_mean := avgQ (growthVals (ds.filter (inWeek w))) })
  | _, _ => []

/-- Modelled from the spec (section 4.3 step 1), for comparison with the
code: the value the spec's imputation rule assigns to cell i of a column -
the cell itself when present, else the nearest preceding non-missing value,
else the nearest following non-missing value. -/
def firstSomeCell : List Cell → Cell
  | [] => none
  | some v :: _ => some v
  | none :: cs => firstSomeCell cs

/-- The nearest preceding non-missing value of a prefix, i.e. the last
non-missing cell of the list. -/
def lastSomeCell (l : List Cell) : Cell := firstSomeCell l.reverse

/-- Modelled from the spec (section 4.3 step 1): forward-fill with the
nearest preceding non-missing value, then backward-fill the remaining
leading gaps with the nearest following non-missing value. -/
def specFillValue (col : List Cell) (i : ℕ) : Cell :=
  match col.getD i none with
  | some v => some v
  | none =>
      match lastSomeCell (col.take i) with
      | some v => some v
      | none => firstSomeCell (col.drop (i + 1))

/-- Concrete input for claim C1: the required Rainfall_mm column is present
but entirely missing.  Dates: day 1 = 2024-01-01, day 2 = 2024-01-02. -/
def tableC1cex : RawTable :=
  ⟨[("Date", [some (Val.vdate 1), some (Val.vdate 2)]),
    ("Rainfall_mm", [none, none]),
    ("Crop_Growth_cm", [some (Val.vnum 1), some (Val.vnum 2)])]⟩

/-- Concrete well-formed input used to instantiate claim C1. -/
def tableC1wit : RawTable :=
  ⟨[("Date", [some (Val.vdate 1), some (Val.vdate 2)]),
    ("Rainfall_mm", [some (Val.vnum 2), some (Val.vnum 1)]),
    ("Crop_Growth_cm", [some (Val.vnum 4), some (Val.vnum 3)])]⟩

/-- Concrete input of the claim C2 scenario: rows
(2024-01-01, -5, 2), (2024-01-02, 10, -1), (2024-01-03, 10, 4) under the
exact required column names. -/
def tableC2 : RawTable :=
  ⟨[("Date", [some (Val.vdate 1), some (Val.vdate 2), some (Val.vdate 3)]),
    ("Rainfall_mm", [some (Val.vnum (-5)), some (Val.vnum 10), some (Val.vnum 10)]),
    ("Crop_Growth_cm", [some (Val.vnum 2), some (Val.vnum (-1)), some (Val.vnum 4)])]⟩

/-- Concrete input for claim C3: Rainfall_mm is absent but the column named
rainfall(mm) normalizes to a fuzzy candidate for it. -/
def tableC3cex : RawTable :=
  ⟨[("Date", [some (Val.vdate 1), some (Val.vdate 2)]),
    ("rainfall(mm)", [some (Val.vnum 5), some (Val.vnum 7)]),
    ("Crop_Growth_cm", [some (Val.vnum 1), some (Val.vnum 2)])]⟩

/-- Concrete input for claim C3 with a required column that resolves to no
candidate at all: humidity does not contain rainfall after normalization. -/
def tableC3noCand : RawTable :=
  ⟨[("Date", [some (Val.vdate 1)]), ("humidity", [some (Val.vnum 5)])]⟩

/-- Concrete input for claim C4: the required Rainfall_mm column has one
missing cell and one value, while the extra Temperature_C column is
entirely missing. -/
def tableC4cex : RawTable :=
  ⟨[("Date", [some (Val.vdate 1), some (Val.vdate 2)]),
    ("Rainfall_mm", [none, some (Val.vnum 5)]),
    ("Crop_Growth_cm", [some (Val.vnum 1), some (Val.vnum 2)]),
    ("Temperature_C", [none, none])]⟩

/-- Concrete input used to instantiate claim C4: every column containing a
missing cell also contains a value. -/
def tableC4wit : RawTable :=
  ⟨[("Date", [some (Val.vdate 1), some (Val.vdate 2)]),
    ("Rainfall_mm", [none, some (Val.vnum 5)]),
    ("Crop_Growth_cm", [some (Val.vnum 1), some (Val.vnum 2)])]⟩

/-- Concrete single-record cleaned dataset for claim C6. -/
def dsC6cex : List Record := [⟨some 1, some 5, some 2⟩]

/-- Concrete single-record dataset used to instantiate claim C6. -/
def dsC6wit1 : List Record := [⟨some 3, some 4, some 6⟩]

/-- Concrete two-record dataset with nonzero variances used to instantiate
claim C6. -/
def dsC6wit2 : List Record := [⟨some 1, some 1, some 1⟩, ⟨some 2, some 3, some 5⟩]

/-- Concrete cleaned dataset with identical rainfall values for claim C7. -/
def dsC7cex : List Record := [⟨some 1, some 5, some 1⟩, ⟨some 2, some 5, some 3⟩]

/-- Concrete constant-rainfall dataset used to instantiate claim C7. -/
def dsC7wit : List Record := [⟨some 1, some 4, some 1⟩, ⟨some 2, some 4, some 9⟩]

/-- Concrete cleaned dataset for claim C8 whose date range spans an empty
middle week: day 1 = 2024-01-01 falls in the week ending Sunday day 7, day
15 = 2024-01-15 in the week ending day 21, and the week ending day 14 holds
no record. -/
def dsC8cex : List Record := [⟨some 1, some 5, some 2⟩, ⟨some 15, some 3, some 4⟩]

/-- Concrete two-week dataset used to instantiate claim C8. -/
def dsC8wit : List Record := [⟨some 1, some 2, some 3⟩, ⟨some 9, some 1, some 5⟩]

/-- Concrete dataset used to instantiate claim C9. -/
def dsC9wit : List Record := [⟨some 1, some 2, none⟩, ⟨some 8, some 3, some 1⟩]

/-- Concrete one-column table used to instantiate claim C10. -/
def tableC10wit : RawTable :=
  ⟨[("Temperature_C", [none, some (Val.vnum 4)])]⟩

/-- Modelled from the spec (section 4.4): does the record fall inside the
non-overlapping 7-day window ending on day w, i.e. is its date within the 6
days before w or on w itself?  Used to compare the code's resample bucketing
against the spec's window phrasing. -/
def inWindow (w : ℤ) (r : Record) : Bool :=
  match r.date with
  | some d => decide (w - 6 ≤ d ∧ d ≤ w)
  | none => false

/-- First-defined choice of two cells: the combinator underlying the
fill-rule characterizations below. -/
def orC (a b : Cell) : Cell :=
  match a with
  | some v => some v
  | none => b

theorem orC_assoc (a b c : Cell) : orC (orC a b) c = orC a (orC b c) := by
  cases a <;> rfl

theorem orC_none_right (a : Cell) : orC a none = a := by
  cases a <;> rfl

theorem ffillGo_length (carry : Cell) (l : List Cell) :
    (ffillGo carry l).length = l.length := by
  induction l generalizing carry with
  | nil => rfl
  | cons c cs ih => cases c <;> simp [ffillGo, ih]

theorem bfillCol_length (l : List Cell) : (bfillCol l).length = l.length := by
  induction l with
  | nil => rfl
  | cons c cs ih => cases c <;> simp [bfillCol, ih]

theorem firstSomeCell_append (a b : List Cell) :
    firstSomeCell (a ++ b) = orC (firstSomeCell a) (firstSomeCell b) := by
  induction a with
  | nil => rfl
  | cons c cs ih => cases c <;> simp [firstSomeCell, orC, ih]

theorem lastSomeCell_cons (c : Cell) (l : List Cell) :
    lastSomeCell (c :: l) = orC (lastSomeCell l) c := by
  show firstSomeCell ((c :: l).reverse) = orC (firstSomeCell l.reverse) c
  rw [List.reverse_cons, firstSomeCell_append]
  cases firstSomeCell l.reverse <;> cases c <;> rfl

theorem headD_bfillCol (l : List Cell) : (bfillCol l).headD none = firstSomeCell l := by
  induction l with
  | nil => rfl
  | cons c cs ih =>
    cases c with
    | some v => simp [bfillCol, firstSomeCell]
    | none =>
      show ((bfillCol cs).headD none :: bfillCol cs).headD none = firstSomeCell (none :: cs)
      rw [List.headD_cons]
      exact ih

theorem firstSomeCell_ffillGo_none (l : List Cell) :
    firstSomeCell (ffillGo none l) = firstSomeCell l := by
  induction l with
  | nil => rfl
  | cons c cs ih => cases c <;> simp [ffillGo, firstSomeCell, ih]

theorem fill_getD (carry : Cell) (col : List Cell) (i : ℕ) (h : i < col.length) :
    (bfillCol (ffillGo carry col)).getD i none =
      orC (col.getD i none)
        (orC (orC (lastSomeCell (col.take i)) carry)
          (firstSomeCell (col.drop (i + 1)))) := by
  induction col generalizing carry i with
  | nil => simp at h
  | cons c cs ih =>
    cases i with
    | zero =>
      cases c with
      | some v => simp [ffillGo, bfillCol, orC]
      | none =>
        cases carry with
        | some v => simp [ffillGo, bfillCol, orC, lastSomeCell, firstSomeCell]
        | none =>
          simp only [ffillGo, bfillCol, List.getD_cons_zero, List.take_zero,
            List.drop_succ_cons, List.drop_zero, lastSomeCell, List.reverse_nil,
            firstSomeCell, orC]
          rw [headD_bfillCol, firstSomeCell_ffillGo_none]
    | succ j =>
      have hj : j < cs.length := by simpa using h
      have tail_eq : (bfillCol (ffillGo carry (c :: cs))).getD (j + 1) none =
          (bfillCol (ffillGo (orC c carry) cs)).getD j none := by
        cases c with
        | some v => simp [ffillGo, bfillCol, orC]
        | none =>
          cases carry with
          | some v => simp [ffillGo, bfillCol, orC]
          | none => simp [ffillGo, bfillCol, orC]
      rw [tail_eq, ih (orC c carry) j hj]
      have take_eq : lastSomeCell ((c :: cs).take (j + 1)) = orC (lastSomeCell (cs.take j)) c := by
        rw [List.take_succ_cons, lastSomeCell_cons]
      simp only [List.getD_cons_succ, take_eq, List.drop_succ_cons]
      cases c <;> cases carry <;> cases (cs.getD j none) <;>
        cases hl : lastSomeCell (cs.take j) <;> simp [orC]

theorem specFillValue_eq_orC (col : List Cell) (i : ℕ) :
    specFillValue col i =
      orC (col.getD i none)
        (orC (lastSomeCell (col.take i)) (firstSomeCell (col.drop (i + 1)))) := by
  unfold specFillValue
  cases col.getD i none <;> cases hl : lastSomeCell (col.take i) <;> simp [orC]

theorem fill_getD_spec (col : List Cell) (i : ℕ) (h : i < col.length) :
    (bfillCol (ffillCol col)).getD i none = specFillValue col i := by
  rw [ffillCol, fill_getD none col i h, specFillValue_eq_orC, orC_none_right]

theorem firstSomeCell_eq_none (l : List Cell) :
    firstSomeCell l = none ↔ ∀ x ∈ l, x = none := by
  induction l with
  | nil => simp [firstSomeCell]
  | cons c cs ih => cases c <;> simp [firstSomeCell, ih]

theorem lastSomeCell_eq_none (l : List Cell) :
    lastSomeCell l = none ↔ ∀ x ∈ l, x = none := by
  rw [lastSomeCell, firstSomeCell_eq_none]
  constructor
  · intro h x hx
    exact h x (List.mem_reverse.2 hx)
  · intro h x hx
    exact h x (List.mem_reverse.1 hx)

theorem fill_getD_isSome (col : List Cell) (hs : col.any (·.isSome) = true)
    (i : ℕ) (h : i < col.length) :
    ((bfillCol (ffillCol col)).getD i none).isSome = true := by
  rw [fill_getD_spec col i h, specFillValue_eq_orC]
  cases hg : col.getD i none with
  | some v => simp [orC]
  | none =>
    cases hl : lastSomeCell (col.take i) with
    | some v => simp [orC]
    | none =>
      simp only [orC]
      cases hf : firstSomeCell (col.drop (i + 1)) with
      | some v => simp
      | none =>
        exfalso
        obtain ⟨x, hx, hxs⟩ := List.any_eq_true.1 hs
        have htk := (lastSomeCell_eq_none _).1 hl
        have hdr := (firstSomeCell_eq_none _).1 hf
        have hsplit : x ∈ col.take i ∨ x ∈ col.drop i := by
          rw [← List.mem_append, List.take_append_drop]; exact hx
        have hdr_eq : col.drop i = col.getD i none :: col.drop (i + 1) := by
          rw [List.getD_eq_getElem col none h]
          exact List.drop_eq_getElem_cons h
        rcases hsplit with hx1 | hx2
        · rw [htk x hx1] at hxs; simp at hxs
        · rw [hdr_eq, hg] at hx2
          rcases List.mem_cons.1 hx2 with h1 | h2
          · rw [h1] at hxs; simp at hxs
          · rw [hdr x h2] at hxs; simp at hxs

theorem fill_mem_all_isSome (col : List Cell) (hs : col.any (·.isSome) = true) :
    ∀ x ∈ bfillCol (ffillCol col), x.isSome = true := by
  intro x hx
  obtain ⟨i, hi, hix⟩ := List.mem_iff_getElem.1 hx
  have hlen : i < col.length := by
    rw [bfillCol_length, ffillCol, ffillGo_length] at hi; exact hi
  have := fill_getD_isSome col hs i hlen
  rw [List.getD_eq_getElem _ none hi, hix] at this
  exact this

theorem mem_ffillGo (carry : Cell) (l : List Cell) :
    ∀ x ∈ ffillGo carry l, x = carry ∨ x ∈ l := by
  induction l generalizing carry with
  | nil => simp [ffillGo]
  | cons c cs ih =>
    intro x hx
    cases c with
    | none =>
      rcases List.mem_cons.1 hx with h | h
      · exact Or.inl h
      · rcases ih carry x h with h1 | h1
        · exact Or.inl h1
        · exact Or.inr (List.mem_cons_of_mem _ h1)
    | some v =>
      rcases List.mem_cons.1 hx with h | h
      · exact Or.inr (by rw [h]; exact List.mem_cons_self _ _)
      · rcases ih (some v) x h with h1 | h1
        · exact Or.inr (by rw [h1]; exact List.mem_cons_self _ _)
        · exact Or.inr (List.mem_cons_of_mem _ h1)

theorem mem_bfillCol (l : List Cell) :
    ∀ x ∈ bfillCol l, x = none ∨ x ∈ l := by
  induction l with
  | nil => simp [bfillCol]
  | cons c cs ih =>
    intro x hx
    cases c with
    | some v =>
      rcases List.mem_cons.1 hx with h | h
      · exact Or.inr (by rw [h]; exact List.mem_cons_self _ _)
      · rcases ih x h with h1 | h1
        · exact Or.inl h1
        · exact Or.inr (List.mem_cons_of_mem _ h1)
    | none =>
      rcases List.mem_cons.1 hx with h | h
      · cases hb : bfillCol cs with
        | nil => rw [hb] at h; simp at h; exact Or.inl h
        | cons y ys =>
          rw [hb] at h; simp at h
          rcases ih x (by rw [hb, h]; exact List.mem_cons_self _ _) with h1 | h1
          · exact Or.inl h1
          · exact Or.inr (List.mem_cons_of_mem _ h1)
      · rcases ih x h with h1 | h1
        · exact Or.inl h1
        · exact Or.inr (List.mem_cons_of_mem _ h1)

theorem mem_fill_of_mem (col : List Cell) :
    ∀ x ∈ bfillCol (ffillCol col), x = none ∨ x ∈ col := by
  intro x hx
  rcases mem_bfillCol _ x hx with h | h
  · exact Or.inl h
  · rcases mem_ffillGo none col x h with h1 | h1
    · exact Or.inl h1
    · exact Or.inr h1

theorem ffillGo_of_all_isSome (carry : Cell) (l : List Cell)
    (h : ∀ x ∈ l, x.isSome = true) : ffillGo carry l = l := by
  induction l generalizing carry with
  | nil => rfl
  | cons c cs ih =>
    cases c with
    | none => have := h none (List.mem_cons_self _ _); simp at this
    | some v =>
      rw [ffillGo, ih (some v) (fun x hx => h x (List.mem_cons_of_mem _ hx))]

theorem bfillCol_of_all_isSome (l : List Cell)
    (h : ∀ x ∈ l, x.isSome = true) : bfillCol l = l := by
  induction l with
  | nil => rfl
  | cons c cs ih =>
    cases c with
    | none => have := h none (List.mem_cons_self _ _); simp at this
    | some v =>
      rw [bfillCol, ih (fun x hx => h x (List.mem_cons_of_mem _ hx))]

theorem getCol_imputeTable (t : RawTable) (name : String) :
    getCol (imputeTable t) name = (getCol t name).map (fun col => bfillCol (ffillCol col)) := by
  simp only [getCol, imputeTable, List.find?_map, Option.map_map]
  rfl

theorem naCount_zero_all_isSome (t : RawTable) (h : naCount t = 0) :
    ∀ p ∈ t.cols, ∀ x ∈ p.2, x.isSome = true := by
  intro p hp x hx
  have hz : (t.cols.map (fun p => p.2.countP (fun c => c.isNone))).sum = 0 := h
  have hall := List.sum_eq_zero_iff.1 hz
  have hcp : p.2.countP (fun c => c.isNone) = 0 :=
    hall _ (List.mem_map.2 ⟨p, hp, rfl⟩)
  have := List.countP_eq_zero.1 hcp x hx
  cases x with
  | some v => rfl
  | none => simp at this

theorem dateLE_total (a b : Option ℤ) : dateLE a b = true ∨ dateLE b a = true := by
  cases a <;> cases b <;> simp [dateLE] <;> omega

theorem dateLE_trans (a b c : Option ℤ) (h1 : dateLE a b = true) (h2 : dateLE b c = true) :
    dateLE a c = true := by
  cases a <;> cases b <;> cases c <;> simp [dateLE] at * <;> omega

theorem mem_insertByDate (r x : Record) (l : List Record) :
    x ∈ insertByDate r l ↔ x = r ∨ x ∈ l := by
  induction l with
  | nil => simp [insertByDate]
  | cons y ys ih =>
    by_cases h : dateLE r.date y.date = true
    · rw [insertByDate, if_pos h]
      simp only [List.mem_cons]
    · rw [insertByDate, if_neg h]
      simp only [List.mem_cons, ih]
      tauto

theorem pairwise_insertByDate (r : Record) (l : List Record)
    (h : l.Pairwise (fun a b => dateLE a.date b.date = true)) :
    (insertByDate r l).Pairwise (fun a b => dateLE a.date b.date = true) := by
  induction l with
  | nil => simp [insertByDate]
  | cons y ys ih =>
    rcases List.pairwise_cons.1 h with ⟨hy, hys⟩
    by_cases hd : dateLE r.date y.date = true
    · simp only [insertByDate, hd, if_true]
      refine List.pairwise_cons.2 ⟨?_, h⟩
      intro z hz
      rcases List.mem_cons.1 hz with h1 | h1
      · rw [h1]; exact hd
      · exact dateLE_trans _ _ _ hd (hy z h1)
    · simp only [insertByDate, hd, if_false]
      refine List.pairwise_cons.2 ⟨?_, ih hys⟩
      intro z hz
      rcases (mem_insertByDate r z ys).1 hz with h1 | h1
      · rw [h1]
        rcases dateLE_total r.date y.date with h2 | h2
        · exact absurd h2 hd
        · exact h2
      · exact hy z h1

theorem sortByDate_pairwise (l : List Record) :
    (sortByDate l).Pairwise (fun a b => dateLE a.date b.date = true) := by
  induction l with
  | nil => simp [sortByDate]
  | cons x xs ih => exact pairwise_insertByDate x (sortByDate xs) ih

theorem mem_sortByDate (x : Record) (l : List Record) :
    x ∈ sortByDate l ↔ x ∈ l := by
  induction l with
  | nil => simp [sortByDate]
  | cons y ys ih =>
    simp only [sortByDate, mem_insertByDate, List.mem_cons, ih]

theorem parseCol_isSome (f : Cell → Option α) (c : List Cell)
    (h : ∀ x ∈ c, (f x).isSome = true) : (parseCol f c).isSome = true := by
  induction c with
  | nil => simp [parseCol]
  | cons x xs ih =>
    have hx := h x (List.mem_cons_self _ _)
    have hxs := ih (fun y hy => h y (List.mem_cons_of_mem _ hy))
    simp only [parseCol]
    cases hfx : f x with
    | none => rw [hfx] at hx; simp at hx
    | some v =>
      cases hpc : parseCol f xs with
      | none => rw [hpc] at hxs; simp at hxs
      | some vs => simp

theorem parseCol_mem (f : Cell → Option α) (c : List Cell) (vs : List α)
    (h : parseCol f c = some vs) : ∀ v ∈ vs, ∃ x ∈ c, f x = some v := by
  induction c generalizing vs with
  | nil =>
    simp only [parseCol, Option.some.injEq] at h
    subst h; simp
  | cons x xs ih =>
    simp only [parseCol] at h
    cases hfx : f x with
    | none => rw [hfx] at h; simp at h
    | some w =>
      rw [hfx] at h
      cases hpc : parseCol f xs with
      | none => rw [hpc] at h; simp at h
      | some ws =>
        rw [hpc] at h
        simp only [Option.some.injEq] at h
        subst h
        intro v hv
        rcases List.mem_cons.1 hv with h1 | h1
        · exact ⟨x, List.mem_cons_self _ _, by rw [hfx, h1]⟩
        · rcases ih ws hpc v h1 with ⟨y, hy, hfy⟩
          exact ⟨y, List.mem_cons_of_mem _ hy, hfy⟩

theorem toDateCell_isSome (x : Cell) (v : Option ℤ) (h1 : toDateCell x = some v)
    (h2 : x.isSome = true) : v.isSome = true := by
  cases x with
  | none => simp at h2
  | some w =>
    cases w with
    | vdate d => simp [toDateCell] at h1; rw [← h1]; rfl
    | vnum q => simp [toDateCell] at h1

theorem toNumCell_isSome (x : Cell) (v : Option ℚ) (h1 : toNumCell x = some v)
    (h2 : x.isSome = true) : v.isSome = true := by
  cases x with
  | none => simp at h2
  | some w =>
    cases w with
    | vnum q => simp [toNumCell] at h1; rw [← h1]; rfl
    | vdate d => simp [toNumCell] at h1

theorem mkRecords_mem (dl : List (Option ℤ)) (rl gl : List (Option ℚ)) :
    ∀ r ∈ mkRecords dl rl gl, r.date ∈ dl ∧ r.rainfall_mm ∈ rl ∧ r.growth_cm ∈ gl := by
  induction dl generalizing rl gl with
  | nil => intro r hr; simp [mkRecords] at hr
  | cons d ds ih =>
    intro r hr
    cases rl with
    | nil => simp [mkRecords] at hr
    | cons q qs =>
      cases gl with
      | nil => simp [mkRecords] at hr
      | cons g gs =>
        rcases List.mem_cons.1 hr with h | h
        · rw [h]; exact ⟨List.mem_cons_self _ _, List.mem_cons_self _ _, List.mem_cons_self _ _⟩
        · rcases ih qs gs r h with ⟨h1, h2, h3⟩
          exact ⟨List.mem_cons_of_mem _ h1, List.mem_cons_of_mem _ h2, List.mem_cons_of_mem _ h3⟩

theorem clampRain_date (r : Record) : (clampRain r).date = r.date := rfl

theorem clampRain_growth (r : Record) : (clampRain r).growth_cm = r.growth_cm := rfl

theorem clampRain_rain_isSome (r : Record) :
    (clampRain r).rainfall_mm.isSome = r.rainfall_mm.isSome := by
  unfold clampRain
  cases r.rainfall_mm with
  | none => rfl
  | some q => by_cases hq : q < 0 <;> simp [hq]

theorem clampRain_nonneg (r : Record) (q : ℚ) (h : (clampRain r).rainfall_mm = some q) :
    0 ≤ q := by
  unfold clampRain at h
  cases hr : r.rainfall_mm with
  | none => simp only [hr] at h; exact Option.noConfusion h
  | some q0 =>
    simp only [hr] at h
    by_cases hq : q0 < 0
    · rw [if_pos hq] at h
      simp only [Option.some.injEq] at h
      rw [← h]
    · rw [if_neg hq] at h
      simp only [Option.some.injEq] at h
      rw [← h]
      exact le_of_not_lt hq

theorem rainStage_mem (rs : List Record) :
    ∀ r ∈ (rainStage rs).1, ∃ r0 ∈ rs, r = r0 ∨ r = clampRain r0 := by
  intro r hr
  rw [rainStage] at hr
  by_cases h : rs.any hasNegRain = true
  · rw [if_pos h] at hr
    rcases List.mem_map.1 hr with ⟨r0, h0, he⟩
    exact ⟨r0, h0, Or.inr he.symm⟩
  · rw [if_neg h] at hr
    exact ⟨r, hr, Or.inl rfl⟩

theorem rainStage_nonneg (rs : List Record) :
    ∀ r ∈ (rainStage rs).1, ∀ q, r.rainfall_mm = some q → 0 ≤ q := by
  intro r hr q hq
  rw [rainStage] at hr
  by_cases h : rs.any hasNegRain = true
  · rw [if_pos h] at hr
    rcases List.mem_map.1 hr with ⟨r0, _, he⟩
    rw [← he] at hq
    exact clampRain_nonneg r0 q hq
  · rw [if_neg h] at hr
    have hall := List.any_eq_false.1 (Bool.not_eq_true _ ▸ h : rs.any hasNegRain = false)
    have := hall r hr
    rw [hasNegRain, hq] at this
    simp at this
    exact this

theorem growthStage_subset (rs : List Record) :
    ∀ r ∈ (growthStage rs).1, r ∈ rs := by
  intro r hr
  rw [growthStage] at hr
  by_cases h : rs.any hasNegGrowth = true
  · rw [if_pos h] at hr
    exact List.mem_of_mem_filter hr
  · rw [if_neg h] at hr
    exact hr

theorem growthStage_nonneg (rs : List Record)
    (hsome : ∀ r ∈ rs, r.growth_cm.isSome = true) :
    ∀ r ∈ (growthStage rs).1, ∃ g, r.growth_cm = some g ∧ 0 ≤ g := by
  intro r hr
  rw [growthStage] at hr
  by_cases h : rs.any hasNegGrowth = true
  · rw [if_pos h] at hr
    have hk := List.of_mem_filter hr
    rw [growthKeep] at hk
    cases hg : r.growth_cm with
    | none => rw [hg] at hk; simp at hk
    | some g =>
      rw [hg] at hk
      simp only [decide_eq_true_eq] at hk
      exact ⟨g, rfl, hk⟩
  · rw [if_neg h] at hr
    have hall := List.any_eq_false.1 (Bool.not_eq_true _ ▸ h : rs.any hasNegGrowth = false)
    have h1 := hall r hr
    cases hg : r.growth_cm with
    | none =>
      have := hsome r hr
      rw [hg] at this
      simp at this
    | some g =>
      rw [hasNegGrowth, hg] at h1
      simp at h1
      exact ⟨g, rfl, h1⟩

theorem coerceStage_ok_inv (t2 : RawTable) (rs : List Record)
    (h : coerceStage t2 = CoerceOut.ok rs) :
    ∃ dc dl rc rl gc gl,
      getCol t2 "Date" = some dc ∧ parseCol toDateCell dc = some dl ∧
      getCol t2 "Rainfall_mm" = some rc ∧ parseCol toNumCell rc = some rl ∧
      getCol t2 "Crop_Growth_cm" = some gc ∧ parseCol toNumCell gc = some gl ∧
      rs = mkRecords dl rl gl := by
  unfold coerceStage at h
  cases h1 : getCol t2 "Date" with
  | none => simp only [h1] at h; exact CoerceOut.noConfusion h
  | some dc =>
    simp only [h1] at h
    cases h2 : parseCol toDateCell dc with
    | none => simp only [h2] at h; exact CoerceOut.noConfusion h
    | some dl =>
      simp only [h2] at h
      cases h3 : getCol t2 "Rainfall_mm" with
      | none => simp only [h3] at h; exact CoerceOut.noConfusion h
      | some rc =>
        simp only [h3] at h
        cases h4 : parseCol toNumCell rc with
        | none => simp only [h4] at h; exact CoerceOut.noConfusion h
        | some rl =>
          simp only [h4] at h
          cases h5 : getCol t2 "Crop_Growth_cm" with
          | none => simp only [h5] at h; exact CoerceOut.noConfusion h
          | some gc =>
            simp only [h5] at h
            cases h6 : parseCol toNumCell gc with
            | none => simp only [h6] at h; exact CoerceOut.noConfusion h
            | some gl =>
              simp only [h6, CoerceOut.ok.injEq] at h
              exact ⟨dc, dl, rc, rl, gc, gl, rfl, h2, rfl, h4, rfl, h6, h.symm⟩

theorem getCol_mem_cols (t : RawTable) (name : String) (col : List Cell)
    (h : getCol t name = some col) : ∃ p ∈ t.cols, p.2 = col := by
  rw [getCol] at h
  cases hf : t.cols.find? (fun p => p.1 == name) with
  | none => rw [hf] at h; simp at h
  | some pr =>
    rw [hf] at h
    simp only [Option.map_some', Option.some.injEq] at h
    exact ⟨pr, List.mem_of_find?_eq_some hf, h⟩

theorem imputeStage_cols_isSome (t : RawTable)
    (hreq : ∀ req ∈ requiredColumns, ∀ col, getCol t req = some col →
      col.any (·.isSome) = true) :
    ∀ name ∈ requiredColumns, ∀ col2, getCol (imputeStage t).1 name = some col2 →
      ∀ x ∈ col2, x.isSome = true := by
  intro name hname col2 hcol2 x hx
  rw [imputeStage] at hcol2
  by_cases hna : 0 < naCount t
  · rw [if_pos hna] at hcol2
    rw [getCol_imputeTable] at hcol2
    rcases Option.map_eq_some'.1 hcol2 with ⟨col0, hc0, hfill⟩
    have hs := hreq name hname col0 hc0
    rw [← hfill] at hx
    exact fill_mem_all_isSome col0 hs x hx
  · rw [if_neg hna] at hcol2
    have hz : naCount t = 0 := by omega
    rcases getCol_mem_cols t name col2 hcol2 with ⟨p, hp, hpc⟩
    exact naCount_zero_all_isSome t hz p hp x (by rw [hpc]; exact hx)

/-- Claim C1 (amended): for every input table on which cleaning succeeds and
in which each required column holds at least one non-missing value, the returned
dataset is sorted by date non-decreasing and every record has a present,
non-negative rainfall value, a present non-negative growth value and a
present date.  (The non-missing-value hypothesis is forced by the
counterexample: a required column that is entirely missing survives
fillna and to_numeric as all-NaN.) -/
theorem claim1_theorem (t : RawTable) (ds : List Record) (ws : List Msg)
    (hval : validate_data t = ⟨some ds, [], ws⟩)
    (hreq : ∀ req ∈ requiredColumns, ∀ col, getCol t req = some col →
      col.any (·.isSome) = true) :
    ds.Pairwise (fun a b => dateLE a.date b.date = true) ∧
    ∀ r ∈ ds, (∃ d, r.date = some d) ∧ (∃ q, r.rainfall_mm = some q ∧ 0 ≤ q) ∧
      (∃ g, r.growth_cm = some g ∧ 0 ≤ g) := by
  have hsc : schemaErrors t = [] := by
    by_contra hne
    simp only [validate_data, if_neg hne] at hval
    simp at hval
  simp only [validate_data, if_pos hsc] at hval
  cases hco : coerceStage (imputeStage t).1 with
  | err e => rw [hco] at hval; simp at hval
  | ok rs =>
    rw [hco] at hval
    simp only [ValidateOut.mk.injEq, Option.some.injEq] at hval
    obtain ⟨hds, -, -⟩ := hval
    rcases coerceStage_ok_inv _ rs hco with
      ⟨dc, dl, rc, rl, gc, gl, hd, hdl, hr, hrl, hg, hgl, hrs⟩
    have hcols := imputeStage_cols_isSome t hreq
    have hdates : ∀ v ∈ dl, v.isSome = true := by
      intro v hv
      rcases parseCol_mem _ _ _ hdl v hv with ⟨x, hx, hfx⟩
      exact toDateCell_isSome x v hfx
        (hcols "Date" (by simp [requiredColumns]) dc hd x hx)
    have hrains : ∀ v ∈ rl, v.isSome = true := by
      intro v hv
      rcases parseCol_mem _ _ _ hrl v hv with ⟨x, hx, hfx⟩
      exact toNumCell_isSome x v hfx
        (hcols "Rainfall_mm" (by simp [requiredColumns]) rc hr x hx)
    have hgrowths : ∀ v ∈ gl, v.isSome = true := by
      intro v hv
      rcases parseCol_mem _ _ _ hgl v hv with ⟨x, hx, hfx⟩
      exact toNumCell_isSome x v hfx
        (hcols "Crop_Growth_cm" (by simp [requiredColumns]) gc hg x hx)
    have hrec : ∀ r ∈ rs, r.date.isSome = true ∧ r.rainfall_mm.isSome = true ∧
        r.growth_cm.isSome = true := by
      intro r hrm
      rw [hrs] at hrm
      rcases mkRecords_mem dl rl gl r hrm with ⟨h1, h2, h3⟩
      exact ⟨hdates _ h1, hrains _ h2, hgrowths _ h3⟩
    have hout : ∀ r ∈ (outlierStage rs).1,
        (∃ d, r.date = some d) ∧ (∃ q, r.rainfall_mm = some q ∧ 0 ≤ q) ∧
        (∃ g, r.growth_cm = some g ∧ 0 ≤ g) := by
      intro r hro
      have hro1 : r ∈ (rainStage rs).1 := growthStage_subset _ r hro
      rcases rainStage_mem rs r hro1 with ⟨r0, hr0, hcase⟩
      rcases hrec r0 hr0 with ⟨hds0, hrs0, hgs0⟩
      have hdate : r.date = r0.date := by
        rcases hcase with h | h
        · rw [h]
        · rw [h, clampRain_date]
      have hgrowth_eq : r.growth_cm = r0.growth_cm := by
        rcases hcase with h | h
        · rw [h]
        · rw [h, clampRain_growth]
      have hrs_isSome : r.rainfall_mm.isSome = true := by
        rcases hcase with h | h
        · rw [h]; exact hrs0
        · rw [h, clampRain_rain_isSome]; exact hrs0
      refine ⟨?_, ?_, ?_⟩
      · rw [hdate]
        exact Option.isSome_iff_exists.1 hds0
      · rcases Option.isSome_iff_exists.1 hrs_isSome with ⟨q, hq⟩
        exact ⟨q, hq, rainStage_nonneg rs r hro1 q hq⟩
      · have hsomeG : ∀ x ∈ (rainStage rs).1, x.growth_cm.isSome = true := by
          intro x hxm
          rcases rainStage_mem rs x hxm with ⟨x0, hx0, hxc⟩
          have := (hrec x0 hx0).2.2
          rcases hxc with h | h
          · rw [h]; exact this
          · rw [h, clampRain_growth]; exact this
        exact growthStage_nonneg _ hsomeG r hro
    constructor
    · rw [← hds]
      exact sortByDate_pairwise _
    · intro r hrm
      rw [← hds] at hrm
      exact hout r ((mem_sortByDate r _).1 hrm)

/-- Claim C1 counterexample: on the table whose Rainfall_mm column is
entirely missing, validate_data returns a dataset (with the fill warning)
whose records still have a missing rainfall value, so the cleaned dataset
does not satisfy the no-missing-values invariant the claim asserts for
every input table. -/
theorem claim1_counterexample :
    validate_data tableC1cex =
      ⟨some [⟨some 1, none, some 1⟩, ⟨some 2, none, some 2⟩], [],
       [Msg.fillMissing 2]⟩ ∧
    ∃ r ∈ ([⟨some 1, none, some 1⟩, ⟨some 2, none, some 2⟩] : List Record),
      r.rainfall_mm = none := by
  constructor
  · decide
  · exact ⟨⟨some 1, none, some 1⟩, by decide, rfl⟩

/-- Claim C1 witness: the amended theorem instantiated on a concrete
well-formed table. -/
theorem claim1_witness :
    validate_data tableC1wit =
      ⟨some [⟨some 1, some 2, some 4⟩, ⟨some 2, some 1, some 3⟩], [], []⟩ ∧
    (([⟨some 1, some 2, some 4⟩, ⟨some 2, some 1, some 3⟩] : List Record).Pairwise
        (fun a b => dateLE a.date b.date = true) ∧
      ∀ r ∈ ([⟨some 1, some 2, some 4⟩, ⟨some 2, some 1, some 3⟩] : List Record),
        (∃ d, r.date = some d) ∧ (∃ q, r.rainfall_mm = some q ∧ 0 ≤ q) ∧
        (∃ g, r.growth_cm = some g ∧ 0 ≤ g)) :=
  ⟨by decide, claim1_theorem tableC1wit _ [] (by decide) (by decide)⟩

/-- Claim C2 (confirmed): on the scenario input with rows
(2024-01-01, -5, 2), (2024-01-02, 10, -1), (2024-01-03, 10, 4), cleaning
returns exactly the records (2024-01-01, 0, 2), (2024-01-03, 10, 4) - the
negative rainfall clamped to 0 with the row kept, the negative-growth row
dropped - and the warning list holds exactly one clamping warning and one
dropping warning. -/
theorem claim2_theorem :
    validate_data tableC2 =
      ⟨some [⟨some 1, some 0, some 2⟩, ⟨some 3, some 10, some 4⟩], [],
       [Msg.negRainfall, Msg.negGrowth]⟩ := by
  decide

theorem parseDate_isSome_of_noVnum (c : List Cell)
    (h : ∀ q : ℚ, some (Val.vnum q) ∉ c) : (parseCol toDateCell c).isSome = true := by
  apply parseCol_isSome
  intro x hx
  cases x with
  | none => rfl
  | some v =>
    cases v with
    | vdate d => rfl
    | vnum q => exact absurd hx (h q)

theorem fill_noVnum (col : List Cell) (h : ∀ q : ℚ, some (Val.vnum q) ∉ col) :
    ∀ q : ℚ, some (Val.vnum q) ∉ bfillCol (ffillCol col) := by
  intro q hmem
  rcases mem_fill_of_mem col _ hmem with h1 | h1
  · exact Option.noConfusion h1
  · exact h q h1

theorem getCol_imputeStage_none (t : RawTable) (name : String)
    (h : getCol t name = none) : getCol (imputeStage t).1 name = none := by
  rw [imputeStage]
  by_cases hna : 0 < naCount t
  · rw [if_pos hna]
    show getCol (imputeTable t) name = none
    rw [getCol_imputeTable, h]
    rfl
  · rw [if_neg hna]
    exact h

theorem getCol_imputeStage_some (t : RawTable) (name : String) (col : List Cell)
    (h : getCol t name = some col) :
    ∃ col2, getCol (imputeStage t).1 name = some col2 ∧
      (col2 = col ∨ col2 = bfillCol (ffillCol col)) := by
  rw [imputeStage]
  by_cases hna : 0 < naCount t
  · rw [if_pos hna]
    refine ⟨bfillCol (ffillCol col), ?_, Or.inr rfl⟩
    show getCol (imputeTable t) name = _
    rw [getCol_imputeTable, h]
    rfl
  · rw [if_neg hna]
    exact ⟨col, h, Or.inl rfl⟩

theorem coerceStage_rain_missing (t2 : RawTable) (dc : List Cell)
    (hd : getCol t2 "Date" = some dc)
    (hp : (parseCol toDateCell dc).isSome = true)
    (hr : getCol t2 "Rainfall_mm" = none) :
    coerceStage t2 = CoerceOut.err (Msg.convFailedKey "Rainfall_mm") := by
  obtain ⟨dl, hdl⟩ := Option.isSome_iff_exists.1 hp
  unfold coerceStage
  simp only [hd, hdl, hr]

/-- Claim C3 (amended): a fuzzy candidate does not resolve the required
column - it only suppresses the missing-column error.  First part: whenever
the schema check passes but Rainfall_mm is absent under its exact name (so
it passed only via a fuzzy candidate), and the Date column holds no
number-typed cell, the pipeline does not proceed with the candidate's
values: it fails at the type-coercion step with a conversion error naming
Rainfall_mm.  Second part: when a required name is absent and has no fuzzy
candidate, validation fails with the missing-column (SchemaError) message
naming that field. -/
theorem claim3_theorem :
    (∀ (t : RawTable) (dc : List Cell),
      schemaErrors t = [] →
      getCol t "Rainfall_mm" = none →
      getCol t "Date" = some dc →
      (∀ q : ℚ, some (Val.vnum q) ∉ dc) →
      validate_data t = ⟨none, [Msg.convFailedKey "Rainfall_mm"], (imputeStage t).2⟩) ∧
    (∀ (t : RawTable) (req : String),
      req ∈ requiredColumns →
      (colNames t).contains req = false →
      hasSimilar (colNames t) req = false →
      (validate_data t).data = none ∧
        Msg.missingColumn req ∈ (validate_data t).errors) := by
  constructor
  · intro t dc hsc hrn hd hnv
    simp only [validate_data, if_pos hsc]
    suffices hcs : coerceStage (imputeStage t).1 =
        CoerceOut.err (Msg.convFailedKey "Rainfall_mm") by
      rw [hcs]
    rcases getCol_imputeStage_some t "Date" dc hd with ⟨dc2, hd2, hcase⟩
    have hnv2 : ∀ q : ℚ, some (Val.vnum q) ∉ dc2 := by
      rcases hcase with h | h
      · rw [h]; exact hnv
      · rw [h]; exact fill_noVnum dc hnv
    exact coerceStage_rain_missing _ dc2 hd2 (parseDate_isSome_of_noVnum dc2 hnv2)
      (getCol_imputeStage_none t "Rainfall_mm" hrn)
  · intro t req hreq hcont hsim
    have hmem : Msg.missingColumn req ∈ schemaErrors t := by
      rw [schemaErrors]
      apply List.mem_filterMap.2
      refine ⟨req, hreq, ?_⟩
      rw [if_neg (by rw [hcont]; exact Bool.false_ne_true),
        if_neg (by rw [hsim]; exact Bool.false_ne_true)]
    have hne : schemaErrors t ≠ [] := List.ne_nil_of_mem hmem
    refine ⟨?_, ?_⟩
    · simp only [validate_data, if_neg hne]
    · simp only [validate_data, if_neg hne]
      exact hmem

/-- Claim C3 counterexample: on the table with columns Date, rainfall(mm),
Crop_Growth_cm the fuzzy candidate for Rainfall_mm exists (second conjunct),
yet the pipeline does not proceed with the candidate's values: it returns no
dataset and a type-conversion error naming Rainfall_mm, contradicting the
claimed successful resolution. -/
theorem claim3_counterexample :
    validate_data tableC3cex =
      ⟨none, [Msg.convFailedKey "Rainfall_mm"], []⟩ ∧
    hasSimilar (colNames tableC3cex) "Rainfall_mm" = true ∧
    schemaErrors tableC3cex = [] := by
  refine ⟨by decide, by decide, by decide⟩

/-- Claim C3 witness: both parts of the amended theorem instantiated on
concrete tables. -/
theorem claim3_witness :
    (validate_data tableC3cex =
      ⟨none, [Msg.convFailedKey "Rainfall_mm"], (imputeStage tableC3cex).2⟩) ∧
    ((validate_data tableC3noCand).data = none ∧
      Msg.missingColumn "Rainfall_mm" ∈ (validate_data tableC3noCand).errors) :=
  ⟨claim3_theorem.1 tableC3cex [some (Val.vdate 1), some (Val.vdate 2)]
      (by decide) (by decide) (by decide) (by intro q hq; simp at hq),
    claim3_theorem.2 tableC3noCand "Rainfall_mm" (by decide) (by decide) (by decide)⟩

theorem fill_of_all_isSome (col : List Cell) (h : ∀ x ∈ col, x.isSome = true) :
    bfillCol (ffillCol col) = col := by
  rw [ffillCol, ffillGo_of_all_isSome none col h, bfillCol_of_all_isSome col h]

theorem fill_countP_none_zero (col : List Cell)
    (h : col.any (·.isNone) = true → col.any (·.isSome) = true) :
    (bfillCol (ffillCol col)).countP (fun c => c.isNone) = 0 := by
  apply List.countP_eq_zero.2
  intro c hc
  cases hs : col.any (·.isSome) with
  | true =>
    have := fill_mem_all_isSome col hs c hc
    simp [Option.isNone, this]
    cases c with
    | some v => rfl
    | none => simp at this
  | false =>
    cases hcol : col with
    | nil =>
      rw [hcol] at hc
      simp [ffillCol, ffillGo, bfillCol] at hc
    | cons y ys =>
      exfalso
      have hyn : y.isNone = false := by
        cases hy : y.isNone with
        | false => rfl
        | true =>
          have hany : col.any (·.isNone) = true := by
            rw [hcol]
            simp [List.any_cons, hy]
          have := h hany
          rw [this] at hs
          exact Bool.noConfusion hs
      have hys : y.isSome = true := by
        cases y with
        | none => simp at hyn
        | some v => rfl
      have : col.any (·.isSome) = true := by
        rw [hcol]
        simp [List.any_cons, hys]
      rw [this] at hs
      exact Bool.noConfusion hs

theorem imputed_no_na (t : RawTable)
    (h : ∀ p ∈ t.cols, p.2.any (·.isNone) = true → p.2.any (·.isSome) = true) :
    naCount (imputeStage t).1 = 0 := by
  rw [imputeStage]
  by_cases hna : 0 < naCount t
  · rw [if_pos hna]
    show naCount (imputeTable t) = 0
    rw [naCount, imputeTable]
    apply List.sum_eq_zero
    intro x hx
    simp only [List.map_map] at hx
    rcases List.mem_map.1 hx with ⟨p, hp, he⟩
    rw [← he]
    exact fill_countP_none_zero p.2 (h p hp)
  · rw [if_neg hna]
    show naCount t = 0
    omega

/-- Claim C4 (amended): the imputation rule of the code agrees cell by cell
with the spec's forward-fill-then-backward-fill rule (first part), and on a
table in which every column holding a missing cell also holds a value, the
imputed table has no missing cell left - so the count in the single fill
warning, which the code takes as the number of missing cells found, equals
the number of cells actually filled - and no warning is emitted when
nothing was missing (second part).  The amendment is forced by the
counterexample: with an additional column that is entirely missing, the
warning's count exceeds the number of cells actually filled and some
missing cells are not replaced. -/
theorem claim4_theorem :
    (∀ (col : List Cell) (i : ℕ), i < col.length →
      (bfillCol (ffillCol col)).getD i none = specFillValue col i) ∧
    (∀ t : RawTable,
      (∀ p ∈ t.cols, p.2.any (·.isNone) = true → p.2.any (·.isSome) = true) →
      naCount (imputeStage t).1 = 0 ∧
      (0 < naCount t → (imputeStage t).2 = [Msg.fillMissing (naCount t)]) ∧
      (naCount t = 0 → (imputeStage t).2 = [])) := by
  constructor
  · exact fill_getD_spec
  · intro t h
    refine ⟨imputed_no_na t h, ?_, ?_⟩
    · intro hna
      rw [imputeStage, if_pos hna]
    · intro hz
      rw [imputeStage, if_neg (by omega)]

/-- Claim C4 counterexample: the Rainfall_mm column has a missing cell next
to a value (the claim's hypothesis, first conjunct), yet the fill warning
reports 3 missing cells while 2 cells - the entirely missing Temperature_C
column - remain missing after imputation, so only 1 cell was filled: the
warning does not state the number of cells filled, and not every missing
cell is replaced. -/
theorem claim4_counterexample :
    getCol tableC4cex "Rainfall_mm" = some [none, some (Val.vnum 5)] ∧
    (imputeStage tableC4cex).2 = [Msg.fillMissing 3] ∧
    naCount (imputeStage tableC4cex).1 = 2 ∧
    getCol (imputeStage tableC4cex).1 "Temperature_C" = some [none, none] := by
  refine ⟨by decide, by decide, by decide, by decide⟩

/-- Claim C4 witness: the amended theorem instantiated on a concrete column
and a concrete table. -/
theorem claim4_witness :
    ((bfillCol (ffillCol [none, some (Val.vnum 5)])).getD 0 none =
      specFillValue [none, some (Val.vnum 5)] 0) ∧
    (naCount (imputeStage tableC4wit).1 = 0 ∧
      (0 < naCount tableC4wit → (imputeStage tableC4wit).2 = [Msg.fillMissing (naCount tableC4wit)]) ∧
      (naCount tableC4wit = 0 → (imputeStage tableC4wit).2 = [])) :=
  ⟨claim4_theorem.1 [none, some (Val.vnum 5)] 0 (by decide),
    claim4_theorem.2 tableC4wit (by decide)⟩

/-- Claim C10 (confirmed): the fillna imputation of app.py line 68 is
applied to every column of the table, not only the required ones: column i
of the imputed table is exactly the forward-fill-then-backward-fill of
column i of the input, under its original name, and any column holding at
least one value comes out with every cell present. -/
theorem claim10_theorem (t : RawTable) (i : ℕ) :
    ((imputeStage t).1.cols.getD i ("", [])) =
      ((t.cols.getD i ("", [])).1, bfillCol (ffillCol (t.cols.getD i ("", [])).2)) ∧
    ((t.cols.getD i ("", [])).2.any (·.isSome) = true →
      ∀ c ∈ ((imputeStage t).1.cols.getD i ("", [])).2, c.isSome = true) := by
  have hmain : ((imputeStage t).1.cols.getD i ("", [])) =
      ((t.cols.getD i ("", [])).1, bfillCol (ffillCol (t.cols.getD i ("", [])).2)) := by
    rw [imputeStage]
    by_cases hna : 0 < naCount t
    · rw [if_pos hna]
      show (imputeTable t).cols.getD i ("", []) = _
      rw [imputeTable]
      by_cases hi : i < t.cols.length
      · rw [List.getD_eq_getElem _ _ (by simpa using hi), List.getD_eq_getElem _ _ hi,
          List.getElem_map]
      · rw [List.getD_eq_default _ _ (by simpa using Nat.le_of_not_lt hi),
          List.getD_eq_default _ _ (Nat.le_of_not_lt hi)]
        rfl
    · rw [if_neg hna]
      show t.cols.getD i ("", []) = _
      by_cases hi : i < t.cols.length
      · have hp := List.getElem_mem (l := t.cols) (n := i) hi
        have hall := naCount_zero_all_isSome t (by omega) _ hp
        rw [List.getD_eq_getElem _ _ hi, fill_of_all_isSome _ hall]
      · rw [List.getD_eq_default _ _ (Nat.le_of_not_lt hi)]
        rfl
  refine ⟨hmain, ?_⟩
  intro hs c hc
  rw [hmain] at hc
  exact fill_mem_all_isSome _ hs c hc

/-- Claim C10 witness: the theorem instantiated on a concrete one-column
table whose only column is not required. -/
theorem claim10_witness :
    (tableC10wit.cols.getD 0 ("", [])).2.any (·.isSome) = true ∧
    ∀ c ∈ ((imputeStage tableC10wit).1.cols.getD 0 ("", [])).2, c.isSome = true :=
  ⟨by decide, (claim10_theorem tableC10wit 0).2 (by decide)⟩

theorem sumQ_eq_zero (l : List ℚ) (h : ∀ x ∈ l, x = 0) : sumQ l = 0 := by
  induction l with
  | nil => rfl
  | cons x xs ih =>
    rw [sumQ, h x (List.mem_cons_self _ _), ih (fun y hy => h y (List.mem_cons_of_mem _ hy))]
    ring

theorem sumQ_all_eq (xs : List ℚ) (c : ℚ) (h : ∀ x ∈ xs, x = c) :
    sumQ xs = c * xs.length := by
  induction xs with
  | nil => simp [sumQ]
  | cons x l ih =>
    rw [sumQ, h x (List.mem_cons_self _ _), ih (fun y hy => h y (List.mem_cons_of_mem _ hy))]
    simp only [List.length_cons]
    push_cast
    ring

theorem varSum_of_all_eq (xs : List ℚ) (c : ℚ) (h : ∀ x ∈ xs, x = c) :
    varSum xs = 0 := by
  cases xs with
  | nil => rfl
  | cons y ys =>
    have hm : meanQ (y :: ys) = c := by
      rw [meanQ, sumQ_all_eq _ c h]
      have hlen : ((y :: ys).length : ℚ) ≠ 0 := by
        have hpos : 0 < (y :: ys).length := Nat.succ_pos _
        exact ne_of_gt (by exact_mod_cast hpos)
      field_simp
    rw [varSum]
    apply sumQ_eq_zero
    intro z hz
    rcases List.mem_map.1 hz with ⟨x, hx, he⟩
    rw [← he, hm, h x hx]
    ring

theorem varSum_subsingleton (xs : List ℚ) (h : xs.length ≤ 1) : varSum xs = 0 := by
  cases xs with
  | nil => rfl
  | cons y ys =>
    cases ys with
    | nil =>
      apply varSum_of_all_eq _ y
      intro x hx
      simpa using hx
    | cons z zs => simp at h

theorem stats_corr_field (ds : List Record) (s : Stats)
    (h : calculate_statistics ds = some s) : s.correlation_isNaN = pearsonIsNaN ds := by
  unfold calculate_statistics at h
  cases hm : minZ (dateVals ds) with
  | none => simp only [hm] at h; exact Option.noConfusion h
  | some m =>
    cases hM : maxZ (dateVals ds) with
    | none => simp only [hm, hM] at h; exact Option.noConfusion h
    | some M =>
      simp only [hm, hM, Option.some.injEq] at h
      rw [← h]

/-- Claim C6 (amended): on a cleaned dataset with fewer than two records the
code's Pearson correlation (pandas Series.corr) is NaN and is stored
silently in the stats mapping - calculate_statistics raises nothing, and no
InsufficientDataError exists anywhere in the repository; with at least two
complete observations of nonzero centered sums of squares the correlation
is a defined Pearson coefficient. -/
theorem claim6_theorem (ds : List Record) :
    (ds.length < 2 → pearsonIsNaN ds = true ∧
      (∀ s, calculate_statistics ds = some s → s.correlation_isNaN = true)) ∧
    (varSum ((corrPairs ds).map Prod.fst) ≠ 0 →
      varSum ((corrPairs ds).map Prod.snd) ≠ 0 →
      pearsonIsNaN ds = false) := by
  constructor
  · intro hlen
    have hvar : varSum ((corrPairs ds).map Prod.fst) = 0 := by
      apply varSum_subsingleton
      rw [List.length_map]
      have := List.length_filterMap_le (fun r : Record =>
        match r.rainfall_mm, r.growth_cm with
        | some a, some b => some (a, b)
        | _, _ => none) ds
      rw [corrPairs]
      omega
    constructor
    · simp [pearsonIsNaN, hvar]
    · intro s hs
      rw [stats_corr_field ds s hs]
      simp [pearsonIsNaN, hvar]
  · intro hx hy
    simp [pearsonIsNaN, hx, hy]

/-- Claim C6 counterexample: on a one-record cleaned dataset the code does
not fail: calculate_statistics returns the full stats record, carrying a
silently-NaN correlation, instead of raising an InsufficientDataError. -/
theorem claim6_counterexample :
    dsC6cex.length = 1 ∧
    calculate_statistics dsC6cex =
      some ⟨1, (1, 1), some 5, some 5, 5, some 2, some 2, true⟩ := by
  constructor
  · rfl
  · norm_num [calculate_statistics, dsC6cex, dateVals, rainVals, growthVals, minZ,
      maxZ, avgQ, maxQ, meanQ, sumQ, round2, roundHalfEven, pearsonIsNaN, corrPairs,
      varSum, List.filterMap]
    all_goals decide

/-- Claim C6 witness: the amended theorem instantiated on a one-record
dataset and on a two-record dataset with nonzero variances. -/
theorem claim6_witness :
    (pearsonIsNaN dsC6wit1 = true ∧
      (∀ s, calculate_statistics dsC6wit1 = some s → s.correlation_isNaN = true)) ∧
    pearsonIsNaN dsC6wit2 = false :=
  ⟨(claim6_theorem dsC6wit1).1 (by decide),
   (claim6_theorem dsC6wit2).2
     (by norm_num [varSum, corrPairs, dsC6wit2, meanQ, sumQ, List.filterMap])
     (by norm_num [varSum, corrPairs, dsC6wit2, meanQ, sumQ, List.filterMap])⟩

theorem round2_intCast (n : ℤ) : round2 ((n : ℚ)) = (n : ℚ) := by
  unfold round2 roundHalfEven
  have h1 : ((n : ℚ) * 100) = ((100 * n : ℤ) : ℚ) := by push_cast; ring
  rw [h1, Int.floor_intCast]
  rw [if_pos (by rw [sub_self]; norm_num)]
  push_cast
  field_simp

theorem weekLabels_length (w0 : ℤ) (k : ℕ) : (weekLabels w0 k).length = k + 1 := by
  rw [weekLabels, List.length_map, List.length_range]

theorem rainVals_all_eq (ds : List Record) (c : ℚ)
    (h : ∀ r ∈ ds, r.rainfall_mm = some c) : ∀ x ∈ rainVals ds, x = c := by
  intro x hx
  rcases List.mem_filterMap.1 hx with ⟨r, hr, he⟩
  rw [h r hr] at he
  exact (Option.some.injEq _ _ ▸ he).symm

theorem minZ_isSome (l : List ℤ) (h : l ≠ []) : (minZ l).isSome = true := by
  cases l with
  | nil => exact absurd rfl h
  | cons x xs =>
    rw [minZ]
    cases minZ xs <;> rfl

theorem maxZ_isSome (l : List ℤ) (h : l ≠ []) : (maxZ l).isSome = true := by
  cases l with
  | nil => exact absurd rfl h
  | cons x xs =>
    rw [maxZ]
    cases maxZ xs <;> rfl

theorem dateVals_ne_nil (ds : List Record) (hne : ds ≠ [])
    (hd : ∀ r ∈ ds, r.date.isSome = true) : dateVals ds ≠ [] := by
  cases ds with
  | nil => exact absurd rfl hne
  | cons r rest =>
    have := hd r (List.mem_cons_self _ _)
    rcases Option.isSome_iff_exists.1 this with ⟨d, hdd⟩
    rw [dateVals, List.filterMap_cons, hdd]
    simp

/-- Claim C7 (amended): on a cleaned dataset whose rainfall values are all
identical, the degree-1 fit input is rank-deficient - np.polyfit emits a
RankWarning and returns a fallback solution rather than raising; no
DegenerateFitError exists anywhere in the repository - while the scalar
stats and the weekly aggregates still compute successfully on that same
dataset. -/
theorem claim7_theorem (ds : List Record) (c : ℚ) (hne : ds ≠ [])
    (hc : ∀ r ∈ ds, r.rainfall_mm = some c)
    (hd : ∀ r ∈ ds, r.date.isSome = true) :
    polyfitRankDeficient (rainVals ds) = true ∧
    polyfit1 (rainVals ds) (growthVals ds) = none ∧
    (calculate_statistics ds).isSome = true ∧
    resampleWeekly ds ≠ [] := by
  have hvar : varSum (rainVals ds) = 0 :=
    varSum_of_all_eq _ c (rainVals_all_eq ds c hc)
  have hdv := dateVals_ne_nil ds hne hd
  obtain ⟨m, hm⟩ := Option.isSome_iff_exists.1 (minZ_isSome _ hdv)
  obtain ⟨M, hM⟩ := Option.isSome_iff_exists.1 (maxZ_isSome _ hdv)
  refine ⟨?_, ?_, ?_, ?_⟩
  · simp [polyfitRankDeficient, hvar]
  · rw [polyfit1, if_pos hvar]
  · unfold calculate_statistics
    rw [hm, hM]
    rfl
  · have hlen : (resampleWeekly ds).length = (weekEnd M - weekEnd m).toNat / 7 + 1 := by
      rw [resampleWeekly, hm, hM, List.length_map, weekLabels_length]
    intro hnil
    rw [hnil] at hlen
    simp at hlen

/-- Claim C7 counterexample: on the two-record dataset with rainfall 5 in
both rows, the pipeline raises nothing: the fit input is degenerate (the
fit returns numpy's warned fallback, modelled none), while stats and the
weekly aggregate are fully computed. -/
theorem claim7_counterexample :
    polyfit1 (rainVals dsC7cex) (growthVals dsC7cex) = none ∧
    calculate_statistics dsC7cex =
      some ⟨2, (1, 2), some 5, some 5, 10, some 2, some 3, true⟩ ∧
    resampleWeekly dsC7cex = [⟨7, 10, some 2⟩] := by
  refine ⟨?_, ?_, ?_⟩
  · norm_num [polyfit1, rainVals, growthVals, dsC7cex, varSum, meanQ, sumQ,
      List.filterMap]
  · have h2 : round2 (2 : ℚ) = 2 := by have h := round2_intCast 2; push_cast at h; exact h
    have h3 : round2 (3 : ℚ) = 3 := by have h := round2_intCast 3; push_cast at h; exact h
    have h5 : round2 (5 : ℚ) = 5 := by have h := round2_intCast 5; push_cast at h; exact h
    have h10 : round2 (10 : ℚ) = 10 := by
      have h := round2_intCast 10; push_cast at h; exact h
    norm_num [calculate_statistics, dsC7cex, dateVals, rainVals, growthVals, minZ,
      maxZ, avgQ, maxQ, meanQ, sumQ, pearsonIsNaN, corrPairs,
      varSum, List.filterMap, h2, h3, h5, h10]
    refine ⟨⟨5, ⟨?_, rfl⟩, h5⟩, ⟨2, ⟨?_, rfl⟩, h2⟩⟩ <;> simp
  · norm_num [resampleWeekly, dsC7cex, dateVals, rainVals, growthVals, minZ, maxZ,
      weekEnd, weekLabels, inWeek, avgQ, meanQ, sumQ, List.filterMap, List.range,
      List.filter, List.range.loop]
    all_goals decide

/-- Claim C7 witness: the amended theorem instantiated on a concrete
constant-rainfall dataset. -/
theorem claim7_witness :
    polyfitRankDeficient (rainVals dsC7wit) = true ∧
    polyfit1 (rainVals dsC7wit) (growthVals dsC7wit) = none ∧
    (calculate_statistics dsC7wit).isSome = true ∧
    resampleWeekly dsC7wit ≠ [] :=
  claim7_theorem dsC7wit 4 (by decide) (by decide) (by decide)

theorem weekEnd_mod (d : ℤ) : weekEnd d % 7 = 0 := by
  unfold weekEnd
  omega

theorem weekEnd_ge (d : ℤ) : d ≤ weekEnd d := by
  unfold weekEnd
  omega

theorem weekEnd_min (d w : ℤ) (h1 : w % 7 = 0) (h2 : d ≤ w) : weekEnd d ≤ w := by
  unfold weekEnd
  omega

theorem weekLabels_mem_bounds (w0 : ℤ) (k : ℕ) (w : ℤ) (h : w ∈ weekLabels w0 k) :
    w0 ≤ w ∧ w ≤ w0 + 7 * k ∧ (w - w0) % 7 = 0 := by
  rcases List.mem_map.1 h with ⟨i, hi, he⟩
  rw [List.mem_range] at hi
  rw [← he]
  refine ⟨by omega, ?_, by omega⟩
  have : (i : ℤ) ≤ (k : ℤ) := by exact_mod_cast Nat.lt_succ_iff.1 hi
  omega

theorem weekLabels_mem_intro (w0 : ℤ) (k : ℕ) (w : ℤ)
    (h1 : w0 ≤ w) (h2 : w ≤ w0 + 7 * k) (h3 : (w - w0) % 7 = 0) :
    w ∈ weekLabels w0 k := by
  apply List.mem_map.2
  refine ⟨((w - w0) / 7).toNat, List.mem_range.2 (by omega), by omega⟩

theorem weekLabels_nodup (w0 : ℤ) (k : ℕ) : (weekLabels w0 k).Nodup := by
  rw [weekLabels]
  refine List.Nodup.map ?_ (List.nodup_range _)
  intro a b hab
  have hab2 : w0 + 7 * (a : ℤ) = w0 + 7 * (b : ℤ) := hab
  have : (a : ℤ) = (b : ℤ) := by omega
  exact_mod_cast this

theorem minZ_none (l : List ℤ) (h : minZ l = none) : l = [] := by
  cases l with
  | nil => rfl
  | cons x xs =>
    rw [minZ] at h
    cases hz : minZ xs with
    | none => simp only [hz] at h; exact Option.noConfusion h
    | some m => simp only [hz] at h; exact Option.noConfusion h

theorem maxZ_none (l : List ℤ) (h : maxZ l = none) : l = [] := by
  cases l with
  | nil => rfl
  | cons x xs =>
    rw [maxZ] at h
    cases hz : maxZ xs with
    | none => simp only [hz] at h; exact Option.noConfusion h
    | some m => simp only [hz] at h; exact Option.noConfusion h

theorem minZ_le (l : List ℤ) (m : ℤ) (h : minZ l = some m) : ∀ x ∈ l, m ≤ x := by
  induction l generalizing m with
  | nil => simp [minZ] at h
  | cons y ys ih =>
    rw [minZ] at h
    cases hys : minZ ys with
    | none =>
      simp only [hys, Option.some.injEq] at h
      have he := minZ_none ys hys
      subst he
      intro x hx
      rcases List.mem_cons.1 hx with h1 | h1
      · omega
      · simp at h1
    | some m0 =>
      simp only [hys, Option.some.injEq] at h
      intro x hx
      rcases List.mem_cons.1 hx with h1 | h1
      · rw [h1, ← h]
        exact min_le_left _ _
      · rw [← h]
        exact le_trans (min_le_right _ _) (ih m0 hys x h1)

theorem le_maxZ (l : List ℤ) (M : ℤ) (h : maxZ l = some M) : ∀ x ∈ l, x ≤ M := by
  induction l generalizing M with
  | nil => simp [maxZ] at h
  | cons y ys ih =>
    rw [maxZ] at h
    cases hys : maxZ ys with
    | none =>
      simp only [hys, Option.some.injEq] at h
      have he := maxZ_none ys hys
      subst he
      intro x hx
      rcases List.mem_cons.1 hx with h1 | h1
      · omega
      · simp at h1
    | some m0 =>
      simp only [hys, Option.some.injEq] at h
      intro x hx
      rcases List.mem_cons.1 hx with h1 | h1
      · rw [h1, ← h]
        exact le_max_left _ _
      · rw [← h]
        exact le_trans (ih m0 hys x h1) (le_max_right _ _)

theorem weekEnd_mem_labels (m M d : ℤ) (h1 : m ≤ d) (h2 : d ≤ M) :
    weekEnd d ∈ weekLabels (weekEnd m) ((weekEnd M - weekEnd m).toNat / 7) := by
  have hmm := weekEnd_mod m
  have hmd := weekEnd_mod d
  have hmM := weekEnd_mod M
  have g1 : weekEnd m ≤ weekEnd d :=
    weekEnd_min m (weekEnd d) hmd (le_trans h1 (weekEnd_ge d))
  have g2 : weekEnd d ≤ weekEnd M :=
    weekEnd_min d (weekEnd M) hmM (le_trans h2 (weekEnd_ge M))
  exact weekLabels_mem_intro _ _ _ g1 (by omega) (by omega)

theorem mem_dateVals (ds : List Record) (r : Record) (d : ℤ)
    (hr : r ∈ ds) (hd : r.date = some d) : d ∈ dateVals ds :=
  List.mem_filterMap.2 ⟨r, hr, by rw [hd]⟩

theorem inWeek_eq_inWindow (w : ℤ) (hw : w % 7 = 0) (r : Record) :
    inWeek w r = inWindow w r := by
  unfold inWeek inWindow
  cases r.date with
  | none => rfl
  | some d =>
    simp only [decide_eq_decide]
    unfold weekEnd
    omega

theorem resampleWeekly_eq (ds : List Record) (m M : ℤ)
    (hm : minZ (dateVals ds) = some m) (hM : maxZ (dateVals ds) = some M) :
    resampleWeekly ds =
      (weekLabels (weekEnd m) ((weekEnd M - weekEnd m).toNat / 7)).map
        (fun w => ⟨w, sumQ (rainVals (ds.filter (inWeek w))),
          avgQ (growthVals (ds.filter (inWeek w)))⟩) := by
  rw [resampleWeekly, hm, hM]

theorem sumQ_map_add {α : Type} (W : List α) (f g : α → ℚ) :
    sumQ (W.map (fun w => f w + g w)) = sumQ (W.map f) + sumQ (W.map g) := by
  induction W with
  | nil => simp [sumQ]
  | cons w ws ih =>
    simp only [List.map_cons, sumQ, ih]
    ring

theorem sumQ_map_zero {α : Type} (W : List α) : sumQ (W.map (fun _ => (0 : ℚ))) = 0 := by
  induction W with
  | nil => rfl
  | cons w ws ih => simp only [List.map_cons, sumQ, ih]; ring

theorem sumQ_indicator (W : List ℤ) (hnd : W.Nodup) (P : ℤ → Bool) (v : ℚ)
    (hex : ∃ w ∈ W, P w = true)
    (huniq : ∀ w1 ∈ W, ∀ w2 ∈ W, P w1 = true → P w2 = true → w1 = w2) :
    sumQ (W.map (fun w => if P w = true then v else 0)) = v := by
  induction W with
  | nil => simp at hex
  | cons w ws ih =>
    rcases List.nodup_cons.1 hnd with ⟨hwn, hnd2⟩
    by_cases hP : P w = true
    · simp only [List.map_cons, sumQ, if_pos hP]
      have hrest : sumQ (ws.map (fun w2 => if P w2 = true then v else 0)) = 0 := by
        apply sumQ_eq_zero
        intro z hz
        rcases List.mem_map.1 hz with ⟨w2, hw2, he⟩
        have : P w2 = false := by
          cases hq : P w2 with
          | false => rfl
          | true =>
            exfalso
            have := huniq w (List.mem_cons_self _ _) w2 (List.mem_cons_of_mem _ hw2) hP hq
            rw [← this] at hw2
            exact hwn hw2
        rw [← he, this]
        simp
      rw [hrest]
      ring
    · simp only [List.map_cons, sumQ, if_neg hP]
      have hex2 : ∃ w2 ∈ ws, P w2 = true := by
        rcases hex with ⟨w2, hw2, hq⟩
        rcases List.mem_cons.1 hw2 with h1 | h1
        · rw [h1] at hq; exact absurd hq hP
        · exact ⟨w2, h1, hq⟩
      rw [ih hnd2 hex2 (fun w1 h1 w2 h2 => huniq w1 (List.mem_cons_of_mem _ h1)
        w2 (List.mem_cons_of_mem _ h2))]
      ring

theorem sumQ_rainVals_cons (r : Record) (l : List Record) :
    sumQ (rainVals (r :: l)) = r.rainfall_mm.getD 0 + sumQ (rainVals l) := by
  rw [rainVals, List.filterMap_cons]
  cases hr : r.rainfall_mm with
  | none => simp [rainVals, sumQ]
  | some q => simp [rainVals, sumQ]

theorem sum_rainVals_filter_partition (W : List ℤ) (hnd : W.Nodup) (ds : List Record)
    (hex : ∀ r ∈ ds, ∃ w ∈ W, inWeek w r = true)
    (huniq : ∀ r : Record, ∀ w1 ∈ W, ∀ w2 ∈ W,
      inWeek w1 r = true → inWeek w2 r = true → w1 = w2) :
    sumQ (W.map (fun w => sumQ (rainVals (ds.filter (inWeek w))))) = sumQ (rainVals ds) := by
  induction ds with
  | nil =>
    simp only [List.filter_nil]
    rw [show (fun w : ℤ => sumQ (rainVals ([] : List Record))) = (fun _ : ℤ => (0 : ℚ))
      from rfl]
    rw [sumQ_map_zero]
    rfl
  | cons r ds2 ih =>
    have hfun : (fun w => sumQ (rainVals ((r :: ds2).filter (inWeek w)))) =
        (fun w => (if inWeek w r = true then r.rainfall_mm.getD 0 else 0) +
          sumQ (rainVals (ds2.filter (inWeek w)))) := by
      funext w
      rw [List.filter_cons]
      by_cases hP : inWeek w r = true
      · rw [if_pos hP, if_pos hP, sumQ_rainVals_cons]
      · rw [if_neg hP, if_neg hP]
        ring_nf
    rw [hfun, sumQ_map_add, sumQ_rainVals_cons]
    rw [sumQ_indicator W hnd (fun w => inWeek w r) _ (hex r (List.mem_cons_self _ _))
      (fun w1 h1 w2 h2 p1 p2 => huniq r w1 h1 w2 h2 p1 p2)]
    rw [ih (fun r2 hr2 => hex r2 (List.mem_cons_of_mem _ hr2))]

theorem inWeek_self (r : Record) (d : ℤ) (hd : r.date = some d) :
    inWeek (weekEnd d) r = true := by
  unfold inWeek
  rw [hd]
  simp

theorem inWeek_date (w : ℤ) (r : Record) (h : inWeek w r = true) :
    ∃ d, r.date = some d ∧ weekEnd d = w := by
  unfold inWeek at h
  cases hd : r.date with
  | none => rw [hd] at h; simp at h
  | some d =>
    rw [hd] at h
    simp only [decide_eq_true_eq] at h
    exact ⟨d, rfl, h⟩

/-- Claim C9 (confirmed): for every cleaned dataset (every record carrying a
real date), the sum of rainfall_sum over all emitted weekly buckets equals
the total rainfall of the dataset: every record falls in exactly one weekly
window of the coverage span, and pandas' zero-filled empty bins contribute
nothing. -/
theorem claim9_theorem (ds : List Record) (hd : ∀ r ∈ ds, r.date.isSome = true) :
    sumQ ((resampleWeekly ds).map (fun b => b.rainfall_sum)) = sumQ (rainVals ds) := by
  cases hm : minZ (dateVals ds) with
  | none =>
    have hdv := minZ_none _ hm
    cases hds : ds with
    | nil =>
      rw [resampleWeekly]
      simp only [hds] at hm ⊢
      rw [hm]
      rfl
    | cons r rest =>
      exfalso
      have hsome := hd r (by rw [hds]; exact List.mem_cons_self _ _)
      rcases Option.isSome_iff_exists.1 hsome with ⟨d, hdd⟩
      have := mem_dateVals ds r d (by rw [hds]; exact List.mem_cons_self _ _) hdd
      rw [hdv] at this
      simp at this
  | some m =>
    cases hM : maxZ (dateVals ds) with
    | none =>
      exfalso
      have := maxZ_none _ hM
      rw [this] at hm
      simp [minZ] at hm
    | some M =>
      rw [resampleWeekly_eq ds m M hm hM, List.map_map]
      have hcomp : ((fun b : WeekBucket => b.rainfall_sum) ∘
          (fun w => (⟨w, sumQ (rainVals (ds.filter (inWeek w))),
            avgQ (growthVals (ds.filter (inWeek w)))⟩ : WeekBucket))) =
          (fun w => sumQ (rainVals (ds.filter (inWeek w)))) := rfl
      rw [hcomp]
      apply sum_rainVals_filter_partition _ (weekLabels_nodup _ _) ds
      · intro r hr
        rcases Option.isSome_iff_exists.1 (hd r hr) with ⟨d, hdd⟩
        have hdm := mem_dateVals ds r d hr hdd
        exact ⟨weekEnd d, weekEnd_mem_labels m M d (minZ_le _ m hm d hdm)
          (le_maxZ _ M hM d hdm), inWeek_self r d hdd⟩
      · intro r w1 h1 w2 h2 p1 p2
        rcases inWeek_date w1 r p1 with ⟨d1, hd1, he1⟩
        rcases inWeek_date w2 r p2 with ⟨d2, hd2, he2⟩
        rw [hd1] at hd2
        simp only [Option.some.injEq] at hd2
        rw [← he1, ← he2, hd2]

/-- Claim C9 witness: the theorem instantiated on a concrete dataset
spanning two weeks. -/
theorem claim9_witness :
    sumQ ((resampleWeekly dsC9wit).map (fun b => b.rainfall_sum)) =
      sumQ (rainVals dsC9wit) :=
  claim9_theorem dsC9wit (by decide)

theorem minZ_mem (l : List ℤ) (m : ℤ) (h : minZ l = some m) : m ∈ l := by
  induction l generalizing m with
  | nil => simp [minZ] at h
  | cons y ys ih =>
    rw [minZ] at h
    cases hys : minZ ys with
    | none =>
      simp only [hys, Option.some.injEq] at h
      rw [← h]
      exact List.mem_cons_self _ _
    | some m0 =>
      simp only [hys, Option.some.injEq] at h
      rcases min_choice y m0 with hc | hc
      · rw [← h, hc]
        exact List.mem_cons_self _ _
      · rw [← h, hc]
        exact List.mem_cons_of_mem _ (ih m0 hys)

theorem inWindow_date (w : ℤ) (r : Record) (h : inWindow w r = true) :
    ∃ d, r.date = some d ∧ w - 6 ≤ d ∧ d ≤ w := by
  unfold inWindow at h
  cases hd : r.date with
  | none => rw [hd] at h; simp at h
  | some d =>
    rw [hd] at h
    simp only [decide_eq_true_eq] at h
    exact ⟨d, rfl, h⟩

/-- Claim C8 (amended): the weekly aggregation emits one bucket for every
7-day Sunday-ending window spanning the dataset's date range - the empty
windows INCLUDED, zero-filled for the rainfall sum and NaN for the growth
mean, rather than omitted as the claim states.  The windows are genuine
non-overlapping 7-day Sunday-ending windows: every bucket label is a Sunday
of the span, each bucket's rainfall_sum and growth_mean are the sum and
mean over exactly the records of its window, every record falls in the
window of some emitted bucket, and no record falls in the windows of two
buckets with distinct labels. -/
theorem claim8_theorem (ds : List Record) (m M : ℤ)
    (hm : minZ (dateVals ds) = some m) (hM : maxZ (dateVals ds) = some M)
    (hd : ∀ r ∈ ds, r.date.isSome = true) :
    ((resampleWeekly ds).map (fun b => b.week_end) =
      weekLabels (weekEnd m) ((weekEnd M - weekEnd m).toNat / 7)) ∧
    (∀ b ∈ resampleWeekly ds,
      b.week_end % 7 = 0 ∧
      weekEnd m ≤ b.week_end ∧ b.week_end ≤ weekEnd M ∧
      b.rainfall_sum = sumQ (rainVals (ds.filter (inWindow b.week_end))) ∧
      b.growth_mean = avgQ (growthVals (ds.filter (inWindow b.week_end))) ∧
      (ds.filter (inWindow b.week_end) = [] →
        b.rainfall_sum = 0 ∧ b.growth_mean = none)) ∧
    (∀ r ∈ ds, ∃ b ∈ resampleWeekly ds, inWindow b.week_end r = true) ∧
    (∀ b1 ∈ resampleWeekly ds, ∀ b2 ∈ resampleWeekly ds, ∀ r : Record,
      inWindow b1.week_end r = true → inWindow b2.week_end r = true →
      b1.week_end = b2.week_end) := by
  have hmM : m ≤ M := le_maxZ _ M hM m (minZ_mem _ m hm)
  have hwmM : weekEnd m ≤ weekEnd M :=
    weekEnd_min m (weekEnd M) (weekEnd_mod M) (le_trans hmM (weekEnd_ge M))
  have hmodm := weekEnd_mod m
  have hmodM := weekEnd_mod M
  have hK : 7 * ((weekEnd M - weekEnd m).toNat / 7 : ℕ) = weekEnd M - weekEnd m := by
    omega
  have hA := resampleWeekly_eq ds m M hm hM
  have hmodw : ∀ w ∈ weekLabels (weekEnd m) ((weekEnd M - weekEnd m).toNat / 7),
      w % 7 = 0 ∧ weekEnd m ≤ w ∧ w ≤ weekEnd M := by
    intro w hw
    rcases weekLabels_mem_bounds _ _ w hw with ⟨h1, h2, h3⟩
    refine ⟨by omega, h1, by omega⟩
  refine ⟨?_, ?_, ?_, ?_⟩
  · rw [hA, List.map_map]
    have : ((fun b : WeekBucket => b.week_end) ∘
        (fun w => (⟨w, sumQ (rainVals (ds.filter (inWeek w))),
          avgQ (growthVals (ds.filter (inWeek w)))⟩ : WeekBucket))) =
        (fun w : ℤ => w) := rfl
    rw [this, List.map_id']
  · intro b hb
    rw [hA] at hb
    rcases List.mem_map.1 hb with ⟨w, hw, he⟩
    rcases hmodw w hw with ⟨hw7, hwlo, hwhi⟩
    have hfeq : inWeek w = inWindow w := funext (inWeek_eq_inWindow w hw7)
    rw [← he]
    refine ⟨hw7, hwlo, hwhi, by rw [← hfeq], by rw [← hfeq], ?_⟩
    intro hempty
    rw [← hfeq] at hempty
    rw [hempty]
    exact ⟨rfl, rfl⟩
  · intro r hr
    rcases Option.isSome_iff_exists.1 (hd r hr) with ⟨d, hdd⟩
    have hdm := mem_dateVals ds r d hr hdd
    have hwmem := weekEnd_mem_labels m M d (minZ_le _ m hm d hdm) (le_maxZ _ M hM d hdm)
    refine ⟨⟨weekEnd d, sumQ (rainVals (ds.filter (inWeek (weekEnd d)))),
      avgQ (growthVals (ds.filter (inWeek (weekEnd d))))⟩, ?_, ?_⟩
    · rw [hA]
      exact List.mem_map.2 ⟨weekEnd d, hwmem, rfl⟩
    · show inWindow (weekEnd d) r = true
      rw [← inWeek_eq_inWindow _ (weekEnd_mod d)]
      exact inWeek_self r d hdd
  · intro b1 hb1 b2 hb2 r p1 p2
    rw [hA] at hb1 hb2
    rcases List.mem_map.1 hb1 with ⟨w1, hw1, he1⟩
    rcases List.mem_map.1 hb2 with ⟨w2, hw2, he2⟩
    have h17 := (hmodw w1 hw1).1
    have h27 := (hmodw w2 hw2).1
    rcases inWindow_date _ r p1 with ⟨d1, hd1, hlo1, hhi1⟩
    rcases inWindow_date _ r p2 with ⟨d2, hd2, hlo2, hhi2⟩
    rw [hd1] at hd2
    simp only [Option.some.injEq] at hd2
    have hbe1 : b1.week_end = w1 := by rw [← he1]
    have hbe2 : b2.week_end = w2 := by rw [← he2]
    rw [hbe1] at hlo1 hhi1
    rw [hbe2] at hlo2 hhi2
    rw [hbe1, hbe2]
    omega

/-- Claim C8 counterexample: on the dataset with records on days 1 and 15
the code emits three buckets - including the zero-filled bucket of the
empty middle week ending day 14, whose window contains no record - where
the claim says an empty window produces no bucket. -/
theorem claim8_counterexample :
    resampleWeekly dsC8cex =
      [⟨7, 5, some 2⟩, ⟨14, 0, none⟩, ⟨21, 3, some 4⟩] ∧
    dsC8cex.filter (inWindow 14) = [] := by
  constructor
  · norm_num [resampleWeekly, dsC8cex, dateVals, rainVals, growthVals, minZ, maxZ,
      weekEnd, weekLabels, inWeek, avgQ, meanQ, sumQ, List.filterMap, List.range,
      List.filter, List.range.loop]
    all_goals decide
  · decide

/-- Claim C8 witness: the amended theorem instantiated on a concrete
dataset with records on days 1 and 9. -/
theorem claim8_witness :
    ((resampleWeekly dsC8wit).map (fun b => b.week_end) =
      weekLabels (weekEnd 1) ((weekEnd 9 - weekEnd 1).toNat / 7)) ∧
    (∀ b ∈ resampleWeekly dsC8wit,
      b.week_end % 7 = 0 ∧
      weekEnd 1 ≤ b.week_end ∧ b.week_end ≤ weekEnd 9 ∧
      b.rainfall_sum = sumQ (rainVals (dsC8wit.filter (inWindow b.week_end))) ∧
      b.growth_mean = avgQ (growthVals (dsC8wit.filter (inWindow b.week_end))) ∧
      (dsC8wit.filter (inWindow b.week_end) = [] →
        b.rainfall_sum = 0 ∧ b.growth_mean = none)) ∧
    (∀ r ∈ dsC8wit, ∃ b ∈ resampleWeekly dsC8wit, inWindow b.week_end r = true) ∧
    (∀ b1 ∈ resampleWeekly dsC8wit, ∀ b2 ∈ resampleWeekly dsC8wit, ∀ r : Record,
      inWindow b1.week_end r = true → inWindow b2.week_end r = true →
      b1.week_end = b2.week_end) :=
  claim8_theorem dsC8wit 1 9 (by decide) (by decide) (by decide)
